import Mathlib

set_option maxHeartbeats 1000000

/-! Verification development for the ARIA role / accessible-name engine
    (roleUtils). The rendered-document tree and its computed styles are
    supplied by an external tree/style oracle; they are modelled below as
    explicit data. Element identifiers are indices into a table, numbered
    in flat-tree document order, so in a well-formed document a parent has
    a smaller index than each of its children; the accessors enforce this
    ordering defensively so that structural tree walks terminate. -/

/-- Whitespace characters matched by the JavaScript regexp class \s and
removed by String.prototype.trim (ECMAScript WhiteSpace plus
LineTerminator code points). -/
def jsWS (c : Char) : Bool :=
  [' ', '\t', '\n', '\r', '\x0b', '\x0c', ' ', ' ',
   ' ', ' ', ' ', ' ', ' ', ' ', ' ',
   ' ', ' ', ' ', ' ', ' ', ' ', ' ',
   ' ', '　', '﻿'].contains c

/-- Helper for JavaScript String.prototype.split with a single-space
separator: accumulates the current field in reverse. -/
def splitOnSpaceGo : List Char → List Char → List String
  | [], acc => [acc.reverse.asString]
  | ' ' :: rest, acc => acc.reverse.asString :: splitOnSpaceGo rest []
  | c :: rest, acc => splitOnSpaceGo rest (c :: acc)

/-- JavaScript String.prototype.split(" "): splits on each single space
character; the empty string yields one empty field. -/
def jsSplitOnSpace (s : String) : List String :=
  splitOnSpaceGo s.toList []

/-- Drop trailing JavaScript whitespace from a character list. -/
def trimRightWs : List Char → List Char
  | [] => []
  | c :: rest =>
    match trimRightWs rest with
    | [] => if jsWS c then [] else [c]
    | r => c :: r

/-- Drop leading and trailing JavaScript whitespace. -/
def jsTrimList (l : List Char) : List Char :=
  trimRightWs (l.dropWhile jsWS)

/-- JavaScript String.prototype.trim. -/
def jsTrim (s : String) : String :=
  (jsTrimList s.toList).asString

/-- JavaScript String.prototype.toLowerCase, restricted to the ASCII range
(sufficient for the attribute values compared by the engine). -/
def jsToLower (s : String) : String :=
  (s.toList.map Char.toLower).asString

/-- JavaScript String.prototype.toUpperCase, restricted to the ASCII range
(sufficient for tag names). -/
def jsToUpper (s : String) : String :=
  (s.toList.map Char.toUpper).asString

/-- One global pass of s.replace(/\r\n/g, "\n"): left-to-right,
non-overlapping, scanning resumes after each replacement. -/
def replaceCrLf : List Char → List Char
  | [] => []
  | '\r' :: '\n' :: rest => '\n' :: replaceCrLf rest
  | c :: rest => c :: replaceCrLf rest

/-- One global pass of s.replace(/ /g, " "). -/
def replaceNbsp (l : List Char) : List Char :=
  l.map (fun c => if c = ' ' then ' ' else c)

theorem dropWhile_length_le {α : Type} (p : α → Bool) (l : List α) :
    (l.dropWhile p).length ≤ l.length := by
  induction l with
  | nil => simp [List.dropWhile]
  | cons a t ih =>
    cases h : p a <;> simp [List.dropWhile, h] <;> omega

/-- One global pass of s.replace(/\s\s+/g, " "): a maximal run of two or
more whitespace characters becomes a single space; a lone whitespace
character is kept as it is. The Bool flag records that the scan stands
inside a run whose single space has already been emitted, making the
recursion structural. -/
def collapseWsGo : Bool → List Char → List Char
  | _, [] => []
  | true, c :: rest =>
    if jsWS c then collapseWsGo true rest
    else c :: collapseWsGo false rest
  | false, c :: rest =>
    if jsWS c then
      match rest with
      | [] => [c]
      | e :: _ => if jsWS e then ' ' :: collapseWsGo true rest
                  else c :: collapseWsGo false rest
    else c :: collapseWsGo false rest

def collapseWs (l : List Char) : List Char :=
  collapseWsGo false l

/-- Flat-string normalization of an accessible name, as in the source
(normalizeAccessbileName): fold CRLF pairs to a newline, fold non-breaking
spaces to spaces, collapse whitespace runs, trim. The misspelling is the
source function's own name. -/
def normalizeAccessbileName (s : String) : String :=
  (jsTrimList (collapseWs (replaceNbsp (replaceCrLf s.toList)))).asString

/-- JavaScript s.substring(1, s.length - 1), including the argument
swap/clamp semantics of String.prototype.substring (for a one-character
string the call substring(1, 0) swaps to substring(0, 1)). -/
def jsSubstringOneToLast (s : String) : String :=
  let l := s.toList
  if l.length ≤ 1 then s else ((l.drop 1).take (l.length - 2)).asString

/-- Exponent suffix of a JavaScript decimal literal: e or E, an optional
sign, and at least one digit. -/
def jsExpSuffix : List Char → Bool
  | [] => true
  | 'e' :: r => jsSignedDigits r
  | 'E' :: r => jsSignedDigits r
  | _ => false
where
  jsSignedDigits : List Char → Bool
    | '+' :: r => !r.isEmpty && r.all Char.isDigit
    | '-' :: r => !r.isEmpty && r.all Char.isDigit
    | r => !r.isEmpty && r.all Char.isDigit

/-- Unsigned part of a JavaScript numeric string: Infinity, a radix
literal, or a decimal literal with optional fraction and exponent. -/
def jsUnsignedNumber (l : List Char) : Bool :=
  if l = "Infinity".toList then true
  else
    match l with
    | '0' :: 'x' :: r => !r.isEmpty && r.all (fun c => c.isDigit || ('a' ≤ c && c ≤ 'f') || ('A' ≤ c && c ≤ 'F'))
    | '0' :: 'X' :: r => !r.isEmpty && r.all (fun c => c.isDigit || ('a' ≤ c && c ≤ 'f') || ('A' ≤ c && c ≤ 'F'))
    | '0' :: 'o' :: r => !r.isEmpty && r.all (fun c => '0' ≤ c && c ≤ '7')
    | '0' :: 'O' :: r => !r.isEmpty && r.all (fun c => '0' ≤ c && c ≤ '7')
    | '0' :: 'b' :: r => !r.isEmpty && r.all (fun c => c = '0' || c = '1')
    | '0' :: 'B' :: r => !r.isEmpty && r.all (fun c => c = '0' || c = '1')
    | _ =>
      let intPart := l.takeWhile Char.isDigit
      let rest := l.dropWhile Char.isDigit
      match rest with
      | [] => !intPart.isEmpty
      | '.' :: r2 =>
        let frac := r2.takeWhile Char.isDigit
        let r3 := r2.dropWhile Char.isDigit
        (!intPart.isEmpty || !frac.isEmpty) && jsExpSuffix r3
      | r => !intPart.isEmpty && jsExpSuffix r

/-- Whether a trimmed JavaScript string converts to a non-NaN number under
the Number() coercion (the empty string converts to 0). -/
def jsParsesAsNumber : List Char → Bool
  | [] => true
  | '+' :: r => jsUnsignedNumber r
  | '-' :: r => jsUnsignedNumber r
  | l => jsUnsignedNumber l

/-- Number.isNaN(Number(String(attr))) for an attribute read: a missing
attribute stringifies as "null", which is NaN. -/
def jsNumberIsNaN : Option String → Bool
  | none => true
  | some s => !(jsParsesAsNumber (jsTrimList s.toList))

/-- HTML non-negative-integer reflection used by the select.size IDL
attribute: leading whitespace and an optional plus sign are skipped, then
digits are read (trailing garbage is ignored); anything invalid reflects
as the default 0. -/
def htmlSelectSize (a : Option String) : Nat :=
  match a with
  | none => 0
  | some s =>
    let l := s.toList.dropWhile jsWS
    let l := match l with
      | '+' :: r => r
      | r => r
    let ds := l.takeWhile Char.isDigit
    if ds.isEmpty then 0
    else ds.foldl (fun n c => n * 10 + (c.toNat - '0'.toNat)) 0

/-- Keywords of the input type attribute, for the HTMLInputElement.type
IDL reflection (invalid values reflect as "text"). -/
def kInputTypeKeywords : List String :=
  ["hidden", "text", "search", "tel", "url", "email", "password", "date",
   "month", "week", "time", "datetime-local", "number", "range", "color",
   "checkbox", "radio", "file", "submit", "image", "reset", "button"]

/-- HTMLInputElement.type: the type attribute lowercased when it is a
valid keyword, otherwise "text". -/
def jsInputType (a : Option String) : String :=
  match a with
  | none => "text"
  | some s =>
    let t := jsToLower s
    if kInputTypeKeywords.contains t then t else "text"

/-- Computed style of an element, as consumed from the style oracle
(modelled from the spec, §6 external interfaces). -/
structure ComputedStyle where
  display : String
deriving Repr, DecidableEq

/-- Computed style of a ::before or ::after pseudo-element: its content
string and its display (modelled from the spec, §6). -/
structure PseudoStyle where
  content : String
  display : String
deriving Repr, DecidableEq

/-- One entry of a childNodes list: an element reference, or a text node
carrying its content, the isVisibleTextNode verdict of the style oracle
(modelled from the spec, §6), and whether the text node is assigned to a
slot. -/
inductive ChildNode where
  | elem (id : Nat)
  | text (content : String) (visibleText : Bool) (assigned : Bool)
deriving Repr, DecidableEq

/-- A node of the rendered tree, as read through the tree/style oracle
(modelled from the spec, §6): tag identity, attributes, parent and
shadow-host links, child nodes, shadow subtree, slot assignment,
associated labels, computed style, and the native per-tag IDL state the
engine consults. Identifiers are flat-tree document-order indices. -/
structure Elem where
  tagName : String
  attrs : List (String × String)
  parentElement : Option Nat
  shadowHost : Option Nat
  childNodes : List ChildNode
  shadowChildren : Option (List ChildNode)
  assignedSlotPresent : Bool
  slotAssignedNodes : List ChildNode
  labels : List Nat
  style : Option ComputedStyle
  pseudoBefore : Option PseudoStyle
  pseudoAfter : Option PseudoStyle
  styleVisibilityVisible : Bool
  idlValue : String
  idlChecked : Bool
  idlIndeterminate : Bool
  idlSelected : Bool
  idlSelectedOptions : List Nat
  idlOptions : List Nat
  idlOpen : Bool
  ownerSVG : Bool
  scopeId : Nat
deriving Repr, DecidableEq

/-- A rendered document: the element table in document order. -/
structure Dom where
  elems : List Elem
deriving Repr, DecidableEq

def elemAt (d : Dom) (i : Nat) : Option Elem := d.elems[i]?

def attrOf (e : Elem) (n : String) : Option String :=
  (e.attrs.find? (fun p => p.1 == n)).map (·.2)

def getAttributeOf (d : Dom) (i : Nat) (n : String) : Option String :=
  (elemAt d i).bind (fun e => attrOf e n)

def hasAttributeOf (d : Dom) (i : Nat) (n : String) : Bool :=
  (getAttributeOf d i n).isSome

def tagOf (d : Dom) (i : Nat) : String :=
  ((elemAt d i).map (·.tagName)).getD ""

/-- Light-tree parent. The document-order well-formedness (a parent
precedes its children) is enforced defensively so upward walks
terminate; on a well-formed document the guard never fires. -/
def parentElementOf (d : Dom) (i : Nat) : Option Nat :=
  match (elemAt d i).bind (·.parentElement) with
  | some p => if p < i then some p else none
  | none => none

/-- Modelled from the spec (§6): parentElementOrShadowHost of the tree
oracle — the light-tree parent, or the shadow host when the element is a
direct child of a shadow root. Defensively ordered like parentElementOf. -/
def parentElementOrShadowHostOf (d : Dom) (i : Nat) : Option Nat :=
  match (elemAt d i).bind (fun e => match e.parentElement with
    | some p => some p
    | none => e.shadowHost) with
  | some p => if p < i then some p else none
  | none => none

def childNodesOf (d : Dom) (i : Nat) : List ChildNode :=
  ((elemAt d i).map (·.childNodes)).getD []

/-- Element children with the defensive document-order guard, for
structural descendant walks. -/
def childElemIds (d : Dom) (i : Nat) : List Nat :=
  (childNodesOf d i).filterMap (fun cn => match cn with
    | .elem j => if i < j then some j else none
    | .text _ _ _ => none)

theorem parentElementOf_lt {d : Dom} {i p : Nat}
    (h : parentElementOf d i = some p) : p < i := by
  unfold parentElementOf at h
  split at h
  · split at h
    · injection h with h1; omega
    · exact absurd h (by simp)
  · exact absurd h (by simp)

theorem parentElementOrShadowHostOf_lt {d : Dom} {i p : Nat}
    (h : parentElementOrShadowHostOf d i = some p) : p < i := by
  unfold parentElementOrShadowHostOf at h
  split at h
  · split at h
    · injection h with h1; omega
    · exact absurd h (by simp)
  · exact absurd h (by simp)

theorem mem_childElemIds {d : Dom} {i j : Nat}
    (h : j ∈ childElemIds d i) : i < j ∧ i < d.elems.length := by
  unfold childElemIds at h
  obtain ⟨cn, hcn, hj⟩ := List.mem_filterMap.mp h
  constructor
  · cases cn with
    | elem k =>
      simp only at hj
      split at hj
      · injection hj with h1; omega
      · exact absurd hj (by simp)
    | text c v a => exact absurd hj (by simp)
  · have hne : childNodesOf d i ≠ [] := by
      intro hnil; rw [hnil] at hcn; exact List.not_mem_nil _ hcn
    unfold childNodesOf at hne
    cases he : elemAt d i with
    | none => rw [he] at hne; simp at hne
    | some e =>
      unfold elemAt at he
      exact (List.getElem?_eq_some.mp he).1

def scopeOf (d : Dom) (i : Nat) : Nat :=
  ((elemAt d i).map (·.scopeId)).getD 0

/-- Modelled from the spec (§6): id-based lookup within a given scope —
enclosingShadowRootOrDocument plus querySelector on an id selector.
Elements are scanned in document order; the first element with the
requested id inside the same scope wins. CSS.escape makes the selector a
literal id match, and the guarded lookup never fails. -/
def findByIdInScope (d : Dom) (scope : Nat) (idv : String) : Option Nat :=
  (List.range d.elems.length).find? (fun k =>
    match elemAt d k with
    | some e => e.scopeId == scope && attrOf e "id" == some idv
    | none => false)

/-- Resolution of a space-separated id reference list (getIdRefs):
non-empty ids are looked up in the element's scope and deduplicated by
first occurrence, preserving order. -/
def getIdRefs (d : Dom) (i : Nat) (ref : Option String) : List Nat :=
  match ref with
  | none => []
  | some r =>
    ((jsSplitOnSpace r).filter (fun s => !s.isEmpty)).foldl
      (fun acc idv =>
        match findByIdInScope d (scopeOf d i) idv with
        | some k => if acc.contains k then acc else acc ++ [k]
        | none => acc) []

/-- Global ARIA state/property attributes
(https://www.w3.org/TR/wai-aria-1.2/#global_states). -/
def kGlobalAriaAttributes : List String :=
  ["aria-atomic", "aria-busy", "aria-controls", "aria-current",
   "aria-describedby", "aria-details", "aria-disabled", "aria-dropeffect",
   "aria-errormessage", "aria-flowto", "aria-grabbed", "aria-haspopup",
   "aria-hidden", "aria-invalid", "aria-keyshortcuts", "aria-label",
   "aria-labelledby", "aria-live", "aria-owns", "aria-relevant",
   "aria-roledescription"]

def hasGlobalAriaAttribute (d : Dom) (i : Nat) : Bool :=
  kGlobalAriaAttributes.any (fun a => hasAttributeOf d i a)

def hasExplicitAccessibleName (d : Dom) (i : Nat) : Bool :=
  hasAttributeOf d i "aria-label" || hasAttributeOf d i "aria-labelledby"

/-- Modelled from the spec (§6): closestCrossShadow of the tree oracle —
the nearest node satisfying a predicate, starting from the element itself
and walking parent-or-shadow-host links upward. The auxiliary Nat is a
structural bound: since each parent link strictly decreases the index,
a bound of i + 1 never runs out (upward walks are kept structurally
recursive so that the kernel can evaluate them). -/
def closestCrossShadowByAux (d : Dom) (p : Nat → Bool) : Nat → Nat → Option Nat
  | 0, _ => none
  | fuel + 1, i =>
    if p i then some i
    else
      match parentElementOrShadowHostOf d i with
      | some q => closestCrossShadowByAux d p fuel q
      | none => none

def closestCrossShadowBy (d : Dom) (p : Nat → Bool) (i : Nat) : Option Nat :=
  closestCrossShadowByAux d p (i + 1) i

/-- Element.closest restricted to a tag-name selector: the nearest
ancestor-or-self with the given tag, walking light-tree parents only
(same structural bound discipline as closestCrossShadowByAux). -/
def closestByTagLightAux (d : Dom) (t : String) : Nat → Nat → Option Nat
  | 0, _ => none
  | fuel + 1, i =>
    if tagOf d i == t then some i
    else
      match parentElementOf d i with
      | some q => closestByTagLightAux d t fuel q
      | none => none

def closestByTagLight (d : Dom) (t : String) (i : Nat) : Option Nat :=
  closestByTagLightAux d t (i + 1) i

/-- Matching of one element against the kAncestorPreventingLandmark
selector: an article/aside/main/nav/section tag with no role attribute,
or a role attribute equal to one of the landmark-like values. -/
def matchesAncestorPreventingLandmark (d : Dom) (k : Nat) : Bool :=
  (["ARTICLE", "ASIDE", "MAIN", "NAV", "SECTION"].contains (tagOf d k)
      && !(hasAttributeOf d k "role"))
  || (match getAttributeOf d k "role" with
      | some r => ["article", "complementary", "main", "navigation", "region"].contains r
      | none => false)

def getAriaBoolean : Option String → Option Bool
  | none => none
  | some a => some (jsToLower a == "true")

/-- All role names of WAI-ARIA 1.2, as listed in the source. -/
def allRoles : List String :=
  ["alert", "alertdialog", "application", "article", "banner", "blockquote",
   "button", "caption", "cell", "checkbox", "code", "columnheader",
   "combobox", "command", "complementary", "composite", "contentinfo",
   "definition", "deletion", "dialog", "directory", "document", "emphasis",
   "feed", "figure", "form", "generic", "grid", "gridcell", "group",
   "heading", "img", "input", "insertion", "landmark", "link", "list",
   "listbox", "listitem", "log", "main", "marquee", "math", "meter", "menu",
   "menubar", "menuitem", "menuitemcheckbox", "menuitemradio", "navigation",
   "none", "note", "option", "paragraph", "presentation", "progressbar",
   "radio", "radiogroup", "range", "region", "roletype", "row", "rowgroup",
   "rowheader", "scrollbar", "search", "searchbox", "section",
   "sectionhead", "select", "separator", "slider", "spinbutton", "status",
   "strong", "structure", "subscript", "superscript", "switch", "tab",
   "table", "tablist", "tabpanel", "term", "textbox", "time", "timer",
   "toolbar", "tooltip", "tree", "treegrid", "treeitem", "widget", "window"]

/-- Abstract roles of WAI-ARIA 1.2, excluded from valid explicit roles. -/
def abstractRoles : List String :=
  ["command", "composite", "input", "landmark", "range", "roletype",
   "section", "sectionhead", "select", "structure", "widget", "window"]

def validRoles : List String :=
  allRoles.filter (fun role => !abstractRoles.contains role)

/-- Explicit ARIA role: the role attribute split on single spaces, each
token trimmed, and the first token that is a valid concrete role. -/
def getExplicitAriaRole (d : Dom) (i : Nat) : Option String :=
  ((jsSplitOnSpace ((getAttributeOf d i "role").getD "")).map jsTrim).find?
    (fun role => validRoles.contains role)

def hasPresentationConflictResolution (d : Dom) (i : Nat) : Bool :=
  !hasGlobalAriaAttribute d i

/-- Implicit role table (kImplicitRoleByTagName), dispatching on the
ASCII-uppercased tag name; entries mirror the source closures. The
returned Option String uses some "" for the input-type-hidden entry, as
in the source returning the empty string. -/
def kImplicitRoleByTagNameOf (d : Dom) (i : Nat) : Option String :=
  match jsToUpper (tagOf d i) with
  | "A" => if hasAttributeOf d i "href" then some "link" else none
  | "AREA" => if hasAttributeOf d i "href" then some "link" else none
  | "ARTICLE" => some "article"
  | "ASIDE" => some "complementary"
  | "BLOCKQUOTE" => some "blockquote"
  | "BUTTON" => some "button"
  | "CAPTION" => some "caption"
  | "CODE" => some "code"
  | "DATALIST" => some "listbox"
  | "DD" => some "definition"
  | "DEL" => some "deletion"
  | "DETAILS" => some "group"
  | "DFN" => some "term"
  | "DIALOG" => some "dialog"
  | "DT" => some "term"
  | "EM" => some "emphasis"
  | "FIELDSET" => some "group"
  | "FIGURE" => some "figure"
  | "FOOTER" =>
    if (closestCrossShadowBy d (matchesAncestorPreventingLandmark d) i).isSome
    then none else some "contentinfo"
  | "FORM" => if hasExplicitAccessibleName d i then some "form" else none
  | "H1" => some "heading"
  | "H2" => some "heading"
  | "H3" => some "heading"
  | "H4" => some "heading"
  | "H5" => some "heading"
  | "H6" => some "heading"
  | "HEADER" =>
    if (closestCrossShadowBy d (matchesAncestorPreventingLandmark d) i).isSome
    then none else some "banner"
  | "HR" => some "separator"
  | "HTML" => some "document"
  | "IMG" =>
    if (getAttributeOf d i "alt" == some "") && !hasGlobalAriaAttribute d i
        && jsNumberIsNaN (getAttributeOf d i "tabindex")
    then some "presentation" else some "img"
  | "INPUT" =>
    let t := jsToLower (jsInputType (getAttributeOf d i "type"))
    if t == "search" then
      (if hasAttributeOf d i "list" then some "combobox" else some "searchbox")
    else if ["email", "tel", "text", "url", ""].contains t then
      match (getIdRefs d i (getAttributeOf d i "list")).head? with
      | some l => if tagOf d l == "DATALIST" then some "combobox" else some "textbox"
      | none => some "textbox"
    else if t == "hidden" then some ""
    else some ((([("button", "button"), ("checkbox", "checkbox"),
        ("image", "button"), ("number", "spinbutton"), ("radio", "radio"),
        ("range", "slider"), ("reset", "button"), ("submit", "button")].find?
          (fun p => p.1 == t)).map (·.2)).getD "textbox")
  | "INS" => some "insertion"
  | "LI" => some "listitem"
  | "MAIN" => some "main"
  | "MARK" => some "mark"
  | "MATH" => some "math"
  | "MENU" => some "list"
  | "METER" => some "meter"
  | "NAV" => some "navigation"
  | "OL" => some "list"
  | "OPTGROUP" => some "group"
  | "OPTION" => some "option"
  | "OUTPUT" => some "status"
  | "P" => some "paragraph"
  | "PROGRESS" => some "progressbar"
  | "SECTION" => if hasExplicitAccessibleName d i then some "region" else none
  | "SELECT" =>
    if hasAttributeOf d i "multiple" || htmlSelectSize (getAttributeOf d i "size") > 1
    then some "listbox" else some "combobox"
  | "STRONG" => some "strong"
  | "SUB" => some "subscript"
  | "SUP" => some "superscript"
  | "SVG" => some "img"
  | "TABLE" => some "table"
  | "TBODY" => some "rowgroup"
  | "TD" =>
    let table := closestCrossShadowBy d (fun k => tagOf d k == "TABLE") i
    let role := (table.bind (getExplicitAriaRole d)).getD ""
    if role == "grid" || role == "treegrid" then some "gridcell" else some "cell"
  | "TEXTAREA" => some "textbox"
  | "TFOOT" => some "rowgroup"
  | "TH" =>
    if getAttributeOf d i "scope" == some "col" then some "columnheader"
    else if getAttributeOf d i "scope" == some "row" then some "rowheader"
    else
      let table := closestCrossShadowBy d (fun k => tagOf d k == "TABLE") i
      let role := (table.bind (getExplicitAriaRole d)).getD ""
      if role == "grid" || role == "treegrid" then some "gridcell" else some "cell"
  | "THEAD" => some "rowgroup"
  | "TIME" => some "time"
  | "TR" => some "row"
  | "UL" => some "list"
  | _ => none

def kPresentationInheritanceParents (t : String) : Option (List String) :=
  match t with
  | "DD" => some ["DL", "DIV"]
  | "DIV" => some ["DL"]
  | "DT" => some ["DL", "DIV"]
  | "LI" => some ["OL", "UL"]
  | "TBODY" => some ["TABLE"]
  | "TD" => some ["TR"]
  | "TFOOT" => some ["TABLE"]
  | "TH" => some ["TR"]
  | "THEAD" => some ["TABLE"]
  | "TR" => some ["THEAD", "TBODY", "TFOOT", "TABLE"]
  | _ => none

/-- Upward walk of getImplicitAriaRole (its while loop): while the
ancestor/parent tag pair stays inside kPresentationInheritanceParents,
look for an ancestor whose explicit role is none/presentation and that
satisfies the source condition for inheriting it; stop at the first step
breaking the table relationship. -/
def presentationInheritedRoleAux (d : Dom) : Nat → Nat → Option String
  | 0, _ => none
  | fuel + 1, i =>
    match kPresentationInheritanceParents (tagOf d i), parentElementOrShadowHostOf d i with
    | some parents, some p =>
      if parents.contains (tagOf d p) then
        match getExplicitAriaRole d p with
        | some r =>
          if (r == "none" || r == "presentation") && !hasPresentationConflictResolution d p
          then some r
          else presentationInheritedRoleAux d fuel p
        | none => presentationInheritedRoleAux d fuel p
      else none
    | _, _ => none

def presentationInheritedRole (d : Dom) (i : Nat) : Option String :=
  presentationInheritedRoleAux d (i + 1) i

def getImplicitAriaRole (d : Dom) (i : Nat) : Option String :=
  let implicitRole := (kImplicitRoleByTagNameOf d i).getD ""
  if implicitRole == "" then none
  else
    match presentationInheritedRole d i with
    | some r => some r
    | none => some implicitRole

def getAriaRole (d : Dom) (i : Nat) : Option String :=
  match getExplicitAriaRole d i with
  | none => getImplicitAriaRole d i
  | some explicitRole =>
    if (explicitRole == "none" || explicitRole == "presentation")
        && hasPresentationConflictResolution d i
    then getImplicitAriaRole d i
    else some explicitRole

/-- Element with no attributes, no children, default oracle answers;
concrete documents in the theorems below override its fields. -/
def blankElem : Elem where
  tagName := "DIV"
  attrs := []
  parentElement := none
  shadowHost := none
  childNodes := []
  shadowChildren := none
  assignedSlotPresent := false
  slotAssignedNodes := []
  labels := []
  style := some { display := "block" }
  pseudoBefore := none
  pseudoAfter := none
  styleVisibilityVisible := true
  idlValue := ""
  idlChecked := false
  idlIndeterminate := false
  idlSelected := false
  idlSelectedOptions := []
  idlOptions := []
  idlOpen := false
  ownerSVG := false
  scopeId := 0

def styleOf (d : Dom) (i : Nat) : Option ComputedStyle :=
  (elemAt d i).bind (·.style)

/-- getElementComputedStyle(node)?.display || "inline": both a missing
style and an empty display string fall back to inline. -/
def displayOf (d : Dom) (i : Nat) : String :=
  match (styleOf d i).map (·.display) with
  | some v => if v == "" then "inline" else v
  | none => "inline"

def assignedSlotPresentOf (d : Dom) (i : Nat) : Bool :=
  ((elemAt d i).map (·.assignedSlotPresent)).getD false

def shadowChildrenOf (d : Dom) (i : Nat) : Option (List ChildNode) :=
  (elemAt d i).bind (·.shadowChildren)

def slotAssignedNodesOf (d : Dom) (i : Nat) : List ChildNode :=
  ((elemAt d i).map (·.slotAssignedNodes)).getD []

def labelsOf (d : Dom) (i : Nat) : List Nat :=
  ((elemAt d i).map (·.labels)).getD []

def idlValueOf (d : Dom) (i : Nat) : String :=
  ((elemAt d i).map (·.idlValue)).getD ""

def idlCheckedOf (d : Dom) (i : Nat) : Bool :=
  ((elemAt d i).map (·.idlChecked)).getD false

def idlIndeterminateOf (d : Dom) (i : Nat) : Bool :=
  ((elemAt d i).map (·.idlIndeterminate)).getD false

def idlSelectedOptionsOf (d : Dom) (i : Nat) : List Nat :=
  ((elemAt d i).map (·.idlSelectedOptions)).getD []

def idlOptionsOf (d : Dom) (i : Nat) : List Nat :=
  ((elemAt d i).map (·.idlOptions)).getD []

def ownerSVGOf (d : Dom) (i : Nat) : Bool :=
  ((elemAt d i).map (·.ownerSVG)).getD false

def pseudoBeforeOf (d : Dom) (i : Nat) : Option PseudoStyle :=
  (elemAt d i).bind (·.pseudoBefore)

def pseudoAfterOf (d : Dom) (i : Nat) : Option PseudoStyle :=
  (elemAt d i).bind (·.pseudoAfter)

def styleVisibilityVisibleOf (d : Dom) (i : Nat) : Bool :=
  ((elemAt d i).map (·.styleVisibilityVisible)).getD false

/-- Recursive ancestor check of belongsToDisplayNoneOrAriaHiddenOrNonSlotted:
un-slotted light children of shadow hosts, display:none, and
aria-hidden=true propagate downward through parent-or-shadow-host links.
The per-pass cacheIsHidden memoization of the source is modelled by pure
recomputation (the cache stores exactly these values). The Nat bound is
structural; i + 1 suffices since parents have smaller indices. -/
def belongsToDisplayNoneAux (d : Dom) : Nat → Nat → Bool
  | 0, _ => false
  | fuel + 1, i =>
    match elemAt d i with
    | none => false
    | some e =>
      let hidden1 :=
        match parentElementOf d i with
        | some p => (shadowChildrenOf d p).isSome && !e.assignedSlotPresent
        | none => false
      if hidden1 then true
      else
        let hidden2 := e.style == none
          || (e.style.map (·.display)) == some "none"
          || getAriaBoolean (attrOf e "aria-hidden") == some true
        if hidden2 then true
        else
          match parentElementOrShadowHostOf d i with
          | some p => belongsToDisplayNoneAux d fuel p
          | none => false

def belongsToDisplayNoneOrAriaHiddenOrNonSlotted (d : Dom) (i : Nat) : Bool :=
  belongsToDisplayNoneAux d (i + 1) i

/-- Child scan of the display:contents branch of isElementHiddenForAria:
hidden only when every element child is hidden and every text child is
invisible. -/
def allContentsChildrenHidden (rec : Nat → Bool) : List ChildNode → Bool
  | [] => true
  | .elem c :: rest => rec c && allContentsChildrenHidden rec rest
  | .text _ vis _ :: rest => !vis && allContentsChildrenHidden rec rest

/-- isElementHiddenForAria over the model. The Nat bound only feeds the
display:contents recursion into children, whose indices strictly grow;
d.elems.length + 1 is always sufficient. -/
def isElementHiddenForAriaAux (d : Dom) : Nat → Nat → Bool
  | 0, _ => true
  | fuel + 1, i =>
    match elemAt d i with
    | none => true
    | some e =>
      if ["STYLE", "SCRIPT", "NOSCRIPT", "TEMPLATE"].contains e.tagName then true
      else
        let isSlot := e.tagName == "SLOT"
        if ((e.style.map (·.display)) == some "contents") && !isSlot then
          allContentsChildrenHidden (isElementHiddenForAriaAux d fuel) e.childNodes
        else
          let isOptionInsideSelect := e.tagName == "OPTION"
            && (closestByTagLight d "SELECT" i).isSome
          if !isOptionInsideSelect && !isSlot && !e.styleVisibilityVisible then true
          else belongsToDisplayNoneOrAriaHiddenOrNonSlotted d i

def isElementHiddenForAria (d : Dom) (i : Nat) : Bool :=
  isElementHiddenForAriaAux d (d.elems.length + 1) i


/-- Tri-state result of getChecked: a boolean, the mixed state, or the
not-applicable sentinel the source spells "error". -/
inductive CheckedValue where
  | bool (b : Bool)
  | mixed
  | error
deriving Repr, DecidableEq

def kAriaCheckedRoles : List String :=
  ["checkbox", "menuitemcheckbox", "option", "radio", "switch",
   "menuitemradio", "treeitem"]

/-- getChecked: native indeterminate/checkbox/radio inputs first, then the
aria-checked fallback for the role allow-list, else the not-applicable
sentinel. -/
def getChecked (d : Dom) (i : Nat) (allowMixed : Bool) : CheckedValue :=
  if allowMixed && tagOf d i == "INPUT" && idlIndeterminateOf d i then .mixed
  else if tagOf d i == "INPUT"
      && ["checkbox", "radio"].contains (jsInputType (getAttributeOf d i "type")) then
    .bool (idlCheckedOf d i)
  else if kAriaCheckedRoles.contains ((getAriaRole d i).getD "") then
    let checked := getAttributeOf d i "aria-checked"
    if checked == some "true" then .bool true
    else if allowMixed && checked == some "mixed" then .mixed
    else .bool false
  else .error

def getAriaChecked (d : Dom) (i : Nat) : CheckedValue :=
  match getChecked d i true with
  | .error => .bool false
  | v => v

def kAriaDisabledRoles : List String :=
  ["application", "button", "composite", "gridcell", "group", "input",
   "link", "menuitem", "scrollbar", "separator", "tab", "checkbox",
   "columnheader", "combobox", "grid", "listbox", "menu", "menubar",
   "menuitemcheckbox", "menuitemradio", "option", "radio", "radiogroup",
   "row", "rowheader", "searchbox", "select", "slider", "spinbutton",
   "switch", "tablist", "textbox", "toolbar", "tree", "treegrid",
   "treeitem"]

/-- belongsToDisabledFieldSet: walk strictly through light-tree parents
(fieldset disabling does not cross shadow boundaries) looking for a
fieldset with the disabled attribute. Structural bound as above. -/
def belongsToDisabledFieldSetAux (d : Dom) : Nat → Option Nat → Bool
  | _, none => false
  | 0, some _ => false
  | fuel + 1, some i =>
    if tagOf d i == "FIELDSET" && hasAttributeOf d i "disabled" then true
    else belongsToDisabledFieldSetAux d fuel (parentElementOf d i)

def belongsToDisabledFieldSet (d : Dom) (oi : Option Nat) : Bool :=
  belongsToDisabledFieldSetAux d (oi.getD 0 + 1) oi

/-- hasExplicitAriaDisabled: walk upward across shadow host boundaries;
at each node whose role is in the aria-disabled allow-list an attribute
value of exactly "true"/"false" (case-insensitive) decides; otherwise the
walk continues. Structural bound as above. -/
def hasExplicitAriaDisabledAux (d : Dom) : Nat → Option Nat → Bool
  | _, none => false
  | 0, some _ => false
  | fuel + 1, some i =>
    if kAriaDisabledRoles.contains ((getAriaRole d i).getD "") then
      let attrV := jsToLower ((getAttributeOf d i "aria-disabled").getD "")
      if attrV == "true" then true
      else if attrV == "false" then false
      else hasExplicitAriaDisabledAux d fuel (parentElementOrShadowHostOf d i)
    else hasExplicitAriaDisabledAux d fuel (parentElementOrShadowHostOf d i)

def hasExplicitAriaDisabled (d : Dom) (oi : Option Nat) : Bool :=
  hasExplicitAriaDisabledAux d (oi.getD 0 + 1) oi

def getAriaDisabled (d : Dom) (i : Nat) : Bool :=
  let isNativeFormControl :=
    ["BUTTON", "INPUT", "SELECT", "TEXTAREA", "OPTION", "OPTGROUP"].contains (tagOf d i)
  if isNativeFormControl
      && (hasAttributeOf d i "disabled" || belongsToDisabledFieldSet d (some i)) then
    true
  else hasExplicitAriaDisabled d (some i)

def childElemIdsAll (d : Dom) (i : Nat) : List Nat :=
  (childNodesOf d i).filterMap (fun cn => match cn with
    | .elem j => some j
    | .text _ _ _ => none)

/-- Concatenation step of Node.textContent over a childNodes list,
parameterized by the recursive call. -/
def textContentPieces (rec : Nat → String) : List ChildNode → String
  | [] => ""
  | .elem j :: rest => rec j ++ textContentPieces rec rest
  | .text c _ _ :: rest => c ++ textContentPieces rec rest

/-- Node.textContent: all descendant text, in document order (shadow
content excluded). Child indices strictly grow in a well-formed document,
so a structural bound of d.elems.length + 1 never runs out. -/
def textContentAux (d : Dom) : Nat → Nat → String
  | 0, _ => ""
  | fuel + 1, i => textContentPieces (textContentAux d fuel) (childNodesOf d i)

def textContentOf (d : Dom) (i : Nat) : String :=
  textContentAux d (d.elems.length + 1) i

/-- Preorder flattening step of querySelectorAll descendant enumeration,
parameterized by the recursive call. -/
def descendantPieces (rec : Nat → List Nat) : List Nat → List Nat
  | [] => []
  | c :: rest => c :: rec c ++ descendantPieces rec rest

/-- All element descendants of a node in document order (light tree
only), with the same structural bound discipline as textContentAux. -/
def descendantElemsAux (d : Dom) : Nat → Nat → List Nat
  | 0, _ => []
  | fuel + 1, i => descendantPieces (descendantElemsAux d fuel) (childElemIdsAll d i)

def descendantElems (d : Dom) (i : Nat) : List Nat :=
  descendantElemsAux d (d.elems.length + 1) i

/-- The two selectors queryInAriaOwned is invoked with. -/
inductive SelKind where
  | star
  | ariaSelectedTrue
deriving Repr, DecidableEq

def matchesSel (d : Dom) (k : Nat) : SelKind → Bool
  | .star => true
  | .ariaSelectedTrue => getAttributeOf d k "aria-selected" == some "true"

/-- queryInAriaOwned: the element's matching descendants, followed by
each aria-owns referenced element (itself when matching, then its
matching descendants). -/
def queryInAriaOwned (d : Dom) (i : Nat) (sel : SelKind) : List Nat :=
  let result := (descendantElems d i).filter (fun k => matchesSel d k sel)
  (getIdRefs d i (getAttributeOf d i "aria-owns")).foldl
    (fun acc owned =>
      let acc := if matchesSel d owned sel then acc ++ [owned] else acc
      acc ++ (descendantElems d owned).filter (fun k => matchesSel d k sel))
    result

def getAriaLabelledByElements (d : Dom) (i : Nat) : Option (List Nat) :=
  match getAttributeOf d i "aria-labelledby" with
  | none => none
  | some ref => some (getIdRefs d i (some ref))

def allowsNameFromContent (role : String) (targetDescendant : Bool) : Bool :=
  ["button", "cell", "checkbox", "columnheader", "gridcell", "heading",
   "link", "menuitem", "menuitemcheckbox", "menuitemradio", "option",
   "radio", "row", "rowheader", "switch", "tab", "tooltip",
   "treeitem"].contains role
  || (targetDescendant &&
      ["", "caption", "code", "contentinfo", "definition", "deletion",
       "emphasis", "insertion", "list", "listitem", "mark", "none",
       "paragraph", "presentation", "region", "row", "rowgroup", "section",
       "strong", "subscript", "superscript", "table", "term",
       "time"].contains role)

/-- getPseudoContent: quoted content strings only, padded with single
spaces when the pseudo-element display is not inline. -/
def getPseudoContent (ps : Option PseudoStyle) : String :=
  match ps with
  | none => ""
  | some p =>
    let cs := p.content.toList
    let quoted :=
      match cs.head?, cs.getLast? with
      | some h, some l => (h = '\'' && l = '\'') || (h = '"' && l = '"')
      | _, _ => false
    if quoted then
      let unquoted := jsSubstringOneToLast p.content
      let display := if p.display == "" then "inline" else p.display
      if display != "inline" then " " ++ unquoted ++ " " else unquoted
    else ""

/-- The per-call traversal context of the recursive worker. The visited
set of the source lives in the same options record but is mutable shared
state; here it is threaded separately as an explicit Finset. -/
inductive EmbeddedMode where
  | none
  | self
  | descendant
deriving Repr, DecidableEq

structure AccessibleNameOptions where
  includeHidden : Bool
  embeddedInLabelledBy : EmbeddedMode
  embeddedInLabel : EmbeddedMode
  embeddedInTextAlternativeElement : Bool
  embeddedInTargetElement : EmbeddedMode
deriving Repr, DecidableEq

def demoteSelf : EmbeddedMode → EmbeddedMode
  | .self => .descendant
  | m => m

def childOptionsOf (o : AccessibleNameOptions) : AccessibleNameOptions :=
  { o with
    embeddedInLabel := demoteSelf o.embeddedInLabel,
    embeddedInLabelledBy := demoteSelf o.embeddedInLabelledBy,
    embeddedInTargetElement := demoteSelf o.embeddedInTargetElement }

/-- Context used when naming an associated label
(getAccessibleNameFromAssociatedLabels). -/
def labelOptionsOf (o : AccessibleNameOptions) : AccessibleNameOptions :=
  { o with
    embeddedInLabel := .self,
    embeddedInTextAlternativeElement := false,
    embeddedInLabelledBy := .none,
    embeddedInTargetElement := .none }

/-- Type of the recursive worker: element, context, visited set in;
name and grown visited set out. The outer Option is the structural
recursion bound: none only when the bound ran out. -/
abbrev NameRec := Nat → AccessibleNameOptions → Finset Nat → Option (String × Finset Nat)

/-- Outcome of one stage of the worker: an early return carrying the
name and the visited set, or fall-through to the next stage with the
current visited set. -/
abbrev NameStep := Option (Sum (String × Finset Nat) (Finset Nat))

def stepSeq (r : NameStep) (k : Finset Nat → NameStep) : NameStep :=
  match r with
  | none => none
  | some (.inl v) => some (.inl v)
  | some (.inr s) => k s

/-- Sequential recursive naming of a list of elements, threading the
visited set. The source mutates one shared grow-only set, so each step
resumes with the union of the returned set and the set already known;
for the source semantics the union is the returned set itself. -/
def nameListGo (recname : NameRec) (o : AccessibleNameOptions) :
    List Nat → Finset Nat → Option (List String × Finset Nat)
  | [], s => some ([], s)
  | j :: rest, s =>
    match recname j o s with
    | none => none
    | some (r, t) =>
      match nameListGo recname o rest (t ∪ s) with
      | none => none
      | some (rs, u) => some (r :: rs, u ∪ t ∪ s)

/-- The visit closure of step 2f: skipSlotted skips assigned nodes;
element children contribute their recursive name, wrapped in single
spaces for non-inline display or br; text children contribute their
content. -/
def visitListGo (d : Dom) (recname : NameRec) (o : AccessibleNameOptions)
    (skipSlotted : Bool) :
    List ChildNode → Finset Nat → Option (List String × Finset Nat)
  | [], s => some ([], s)
  | .elem j :: rest, s =>
    if skipSlotted && assignedSlotPresentOf d j then
      visitListGo d recname o skipSlotted rest s
    else
      match recname j o s with
      | none => none
      | some (tok, t) =>
        let tok := if displayOf d j != "inline" || tagOf d j == "BR"
          then " " ++ tok ++ " " else tok
        match visitListGo d recname o skipSlotted rest (t ∪ s) with
        | none => none
        | some (toks, u) => some (tok :: toks, u ∪ t ∪ s)
  | .text c _ assigned :: rest, s =>
    if skipSlotted && assigned then visitListGo d recname o skipSlotted rest s
    else
      match visitListGo d recname o skipSlotted rest s with
      | none => none
      | some (toks, u) => some (c :: toks, u)

def getAccessibleNameFromAssociatedLabels (recname : NameRec)
    (o : AccessibleNameOptions) (labels : List Nat) (s : Finset Nat) : NameStep :=
  match nameListGo recname (labelOptionsOf o) labels s with
  | none => none
  | some (rs, t) =>
    some (.inl (String.intercalate " " (rs.filter (fun r => r ≠ "")), t ∪ s))

def firstElementChildWithTag (d : Dom) (i : Nat) (t : String) : Option Nat :=
  (childElemIdsAll d i).find? (fun c => tagOf d c == t)

/-- Step 2b of the worker: resolve aria-labelledby references (only at
the top of a recursion, not when already inside a labelledby expansion)
and join the referenced names with single spaces; a non-empty result is
final. -/
def step2b (d : Dom) (recname : NameRec) (o : AccessibleNameOptions)
    (labelledBy : Option (List Nat)) (s : Finset Nat) : NameStep :=
  if o.embeddedInLabelledBy = EmbeddedMode.none then
    match nameListGo recname
        { o with
          embeddedInLabelledBy := .self,
          embeddedInTargetElement := .none,
          embeddedInLabel := .none,
          embeddedInTextAlternativeElement := false }
        (labelledBy.getD []) s with
    | none => none
    | some (rs, t) =>
      let accessibleName := String.intercalate " " rs
      if accessibleName ≠ "" then some (.inl (accessibleName, t ∪ s))
      else some (.inr (t ∪ s))
  else some (.inr s)

/-- Step 2c of the worker: the embedded-control short-circuit used while
expanding a label or labelledby reference. -/
def step2c (d : Dom) (recname : NameRec) (i : Nat) (o : AccessibleNameOptions)
    (childOptions : AccessibleNameOptions) (labelledBy : Option (List Nat))
    (role : String) (s : Finset Nat) : NameStep :=
  if o.embeddedInLabel ≠ EmbeddedMode.none ∨ o.embeddedInLabelledBy ≠ EmbeddedMode.none then
    let isOwnLabel := (labelsOf d i).contains i
    let isOwnLabelledBy := (labelledBy.getD []).contains i
    if !isOwnLabel && !isOwnLabelledBy then
      if role == "textbox" then
        let s2 := insert i s
        if tagOf d i == "INPUT" || tagOf d i == "TEXTAREA" then
          some (.inl (idlValueOf d i, s2))
        else some (.inl (textContentOf d i, s2))
      else if role == "combobox" || role == "listbox" then
        let s2 := insert i s
        let selectedOptions :=
          if tagOf d i == "SELECT" then
            let sel := idlSelectedOptionsOf d i
            if sel.isEmpty && !(idlOptionsOf d i).isEmpty then (idlOptionsOf d i).take 1
            else sel
          else
            let listbox :=
              if role == "combobox" then
                (queryInAriaOwned d i .star).find? (fun k => getAriaRole d k == some "listbox")
              else some i
            match listbox with
            | some lb =>
              (queryInAriaOwned d lb .ariaSelectedTrue).filter
                (fun k => getAriaRole d k == some "option")
            | none => []
        match nameListGo recname childOptions selectedOptions s2 with
        | none => none
        | some (rs, t) => some (.inl (String.intercalate " " rs, t ∪ s2))
      else if ["progressbar", "scrollbar", "slider", "spinbutton", "meter"].contains role then
        let s2 := insert i s
        if hasAttributeOf d i "aria-valuetext" then
          some (.inl ((getAttributeOf d i "aria-valuetext").getD "", s2))
        else if hasAttributeOf d i "aria-valuenow" then
          some (.inl ((getAttributeOf d i "aria-valuenow").getD "", s2))
        else some (.inl ((getAttributeOf d i "value").getD "", s2))
      else if role == "menu" then some (.inl ("", insert i s))
      else some (.inr s)
    else some (.inr s)
  else some (.inr s)

/-- Step 2d of the worker: a non-blank aria-label wins outright. -/
def step2d (d : Dom) (i : Nat) (s : Finset Nat) : NameStep :=
  let ariaLabel := (getAttributeOf d i "aria-label").getD ""
  if jsTrim ariaLabel ≠ "" then some (.inl (ariaLabel, insert i s))
  else some (.inr s)

/-- Check of step 2e for input type button/submit/reset. -/
def checkInputButtonName (d : Dom) (i : Nat) (s : Finset Nat) : NameStep :=
  if tagOf d i = "INPUT"
      && ["button", "submit", "reset"].contains (jsInputType (getAttributeOf d i "type")) then
    let s2 := insert i s
    let value := idlValueOf d i
    if jsTrim value ≠ "" then some (.inl (value, s2))
    else if jsInputType (getAttributeOf d i "type") == "submit" then
      some (.inl ("Submit", s2))
    else if jsInputType (getAttributeOf d i "type") == "reset" then
      some (.inl ("Reset", s2))
    else some (.inl ((getAttributeOf d i "title").getD "", s2))
  else some (.inr s)

/-- Check of step 2e for input type image: associated labels, else alt,
else title, else the fixed Submit default. -/
def checkInputImageName (d : Dom) (recname : NameRec) (i : Nat)
    (o : AccessibleNameOptions) (s : Finset Nat) : NameStep :=
  if tagOf d i = "INPUT" && jsInputType (getAttributeOf d i "type") == "image" then
    let s2 := insert i s
    let labels := labelsOf d i
    if !labels.isEmpty && o.embeddedInLabelledBy = EmbeddedMode.none then
      getAccessibleNameFromAssociatedLabels recname o labels s2
    else
      let alt := (getAttributeOf d i "alt").getD ""
      if jsTrim alt ≠ "" then some (.inl (alt, s2))
      else
        let title := (getAttributeOf d i "title").getD ""
        if jsTrim title ≠ "" then some (.inl (title, s2))
        else some (.inl ("Submit", s2))
  else some (.inr s)

/-- Check of step 2e for the button element: associated labels, else
fall through to content with the element already visited. -/
def checkButtonTagName (d : Dom) (recname : NameRec) (i : Nat)
    (o : AccessibleNameOptions) (labelledBy : Option (List Nat))
    (s : Finset Nat) : NameStep :=
  if labelledBy = none && tagOf d i = "BUTTON" then
    let s2 := insert i s
    let labels := labelsOf d i
    if !labels.isEmpty then getAccessibleNameFromAssociatedLabels recname o labels s2
    else some (.inr s2)
  else some (.inr s)

/-- Check of step 2e for the output element: associated labels, else the
title attribute. -/
def checkOutputName (d : Dom) (recname : NameRec) (i : Nat)
    (o : AccessibleNameOptions) (labelledBy : Option (List Nat))
    (s : Finset Nat) : NameStep :=
  if labelledBy = none && tagOf d i = "OUTPUT" then
    let s2 := insert i s
    let labels := labelsOf d i
    if !labels.isEmpty then getAccessibleNameFromAssociatedLabels recname o labels s2
    else some (.inl ((getAttributeOf d i "title").getD "", s2))
  else some (.inr s)

/-- Check of step 2e for text-entry fields and selects: associated
labels, else placeholder unless a title is present. -/
def checkTextFieldName (d : Dom) (recname : NameRec) (i : Nat)
    (o : AccessibleNameOptions) (labelledBy : Option (List Nat))
    (s : Finset Nat) : NameStep :=
  if labelledBy = none
      && (tagOf d i = "TEXTAREA" ∨ tagOf d i = "SELECT" ∨ tagOf d i = "INPUT") then
    let s2 := insert i s
    let labels := labelsOf d i
    if !labels.isEmpty then getAccessibleNameFromAssociatedLabels recname o labels s2
    else
      let usePlaceholder :=
        (tagOf d i == "INPUT"
          && ["text", "password", "search", "tel", "email", "url"].contains
               (jsInputType (getAttributeOf d i "type")))
        || tagOf d i == "TEXTAREA"
      let placeholder := (getAttributeOf d i "placeholder").getD ""
      let title := (getAttributeOf d i "title").getD ""
      if !usePlaceholder || title ≠ "" then some (.inl (title, s2))
      else some (.inl (placeholder, s2))
  else some (.inr s)

/-- Check of step 2e for fieldset: the first legend child expanded as
text-alternative content, else the title attribute. -/
def checkFieldsetName (d : Dom) (recname : NameRec) (i : Nat)
    (childOptions : AccessibleNameOptions) (labelledBy : Option (List Nat))
    (s : Finset Nat) : NameStep :=
  if labelledBy = none && tagOf d i = "FIELDSET" then
    let s2 := insert i s
    match firstElementChildWithTag d i "LEGEND" with
    | some legend =>
      match recname legend
          { childOptions with embeddedInTextAlternativeElement := true } s2 with
      | none => none
      | some (r, t) => some (.inl (r, t ∪ s2))
    | none => some (.inl ((getAttributeOf d i "title").getD "", s2))
  else some (.inr s)

/-- Check of step 2e for figure: the first figcaption child, else the
title attribute. -/
def checkFigureName (d : Dom) (recname : NameRec) (i : Nat)
    (childOptions : AccessibleNameOptions) (labelledBy : Option (List Nat))
    (s : Finset Nat) : NameStep :=
  if labelledBy = none && tagOf d i = "FIGURE" then
    let s2 := insert i s
    match firstElementChildWithTag d i "FIGCAPTION" with
    | some figcaption =>
      match recname figcaption
          { childOptions with embeddedInTextAlternativeElement := true } s2 with
      | none => none
      | some (r, t) => some (.inl (r, t ∪ s2))
    | none => some (.inl ((getAttributeOf d i "title").getD "", s2))
  else some (.inr s)

/-- Check of step 2e for the img element: alt, else title. -/
def checkImgName (d : Dom) (i : Nat) (s : Finset Nat) : NameStep :=
  if tagOf d i = "IMG" then
    let s2 := insert i s
    let alt := (getAttributeOf d i "alt").getD ""
    if jsTrim alt ≠ "" then some (.inl (alt, s2))
    else some (.inl ((getAttributeOf d i "title").getD "", s2))
  else some (.inr s)

/-- Check of step 2e for the table element: the first caption child, else
a non-empty summary attribute; the source deliberately does not read
title here and falls through instead, leaving the element visited. -/
def checkTableName (d : Dom) (recname : NameRec) (i : Nat)
    (childOptions : AccessibleNameOptions) (s : Finset Nat) : NameStep :=
  if tagOf d i = "TABLE" then
    let s2 := insert i s
    match firstElementChildWithTag d i "CAPTION" with
    | some caption =>
      match recname caption
          { childOptions with embeddedInTextAlternativeElement := true } s2 with
      | none => none
      | some (r, t) => some (.inl (r, t ∪ s2))
    | none =>
      let summary := (getAttributeOf d i "summary").getD ""
      if summary ≠ "" then some (.inl (summary, s2))
      else some (.inr s2)
  else some (.inr s)

/-- Check of step 2e for the area element: alt, else title. -/
def checkAreaName (d : Dom) (i : Nat) (s : Finset Nat) : NameStep :=
  if tagOf d i = "AREA" then
    let s2 := insert i s
    let alt := (getAttributeOf d i "alt").getD ""
    if jsTrim alt ≠ "" then some (.inl (alt, s2))
    else some (.inl ((getAttributeOf d i "title").getD "", s2))
  else some (.inr s)

/-- Check of step 2e for graphics roots and graphics elements: the first
title child expanded as a labelledby target; without one the element
stays visited and the scan falls through. -/
def checkSvgTitleName (d : Dom) (recname : NameRec) (i : Nat)
    (childOptions : AccessibleNameOptions) (s : Finset Nat) : NameStep :=
  if jsToUpper (tagOf d i) = "SVG" ∨ ownerSVGOf d i then
    let s2 := insert i s
    match (childElemIdsAll d i).find?
        (fun c => jsToUpper (tagOf d c) == "TITLE" && ownerSVGOf d c) with
    | some titleChild =>
      match recname titleChild
          { childOptions with embeddedInLabelledBy := .self } s2 with
      | none => none
      | some (r, t) => some (.inl (r, t ∪ s2))
    | none => some (.inr s2)
  else some (.inr s)

/-- Check of step 2e for graphics links: a non-blank xlink:title. -/
def checkSvgAName (d : Dom) (i : Nat) (s : Finset Nat) : NameStep :=
  if ownerSVGOf d i && jsToUpper (tagOf d i) == "A" then
    let title := (getAttributeOf d i "xlink:title").getD ""
    if jsTrim title ≠ "" then some (.inl (title, insert i s))
    else some (.inr s)
  else some (.inr s)

/-- Step 2e of the worker: tag-specific native-semantics rules, skipped
entirely for the presentation/none roles. Each check mirrors one if
statement of the source. -/
def step2e (d : Dom) (recname : NameRec) (i : Nat) (o : AccessibleNameOptions)
    (childOptions : AccessibleNameOptions) (labelledBy : Option (List Nat))
    (role : String) (s : Finset Nat) : NameStep :=
  if ¬(role = "presentation" ∨ role = "none") then
    stepSeq (checkInputButtonName d i s) fun s =>
    stepSeq (checkInputImageName d recname i o s) fun s =>
    stepSeq (checkButtonTagName d recname i o labelledBy s) fun s =>
    stepSeq (checkOutputName d recname i o labelledBy s) fun s =>
    stepSeq (checkTextFieldName d recname i o labelledBy s) fun s =>
    stepSeq (checkFieldsetName d recname i childOptions labelledBy s) fun s =>
    stepSeq (checkFigureName d recname i childOptions labelledBy s) fun s =>
    stepSeq (checkImgName d i s) fun s =>
    stepSeq (checkTableName d recname i childOptions s) fun s =>
    stepSeq (checkAreaName d i s) fun s =>
    stepSeq (checkSvgTitleName d recname i childOptions s) fun s =>
    checkSvgAName d i s
  else some (.inr s)

/-- Token collection of step 2f: slot-assigned nodes instead of children
when assigned; otherwise children, then shadow children (none when no
shadow root, visiting the empty list), then aria-owns referenced nodes. -/
def step2fTokens (d : Dom) (recname : NameRec) (co : AccessibleNameOptions)
    (i : Nat) (s2 : Finset Nat) : Option (List String × Finset Nat) :=
  if tagOf d i == "SLOT" && !(slotAssignedNodesOf d i).isEmpty then
    visitListGo d recname co false (slotAssignedNodesOf d i) s2
  else
    match visitListGo d recname co true (childNodesOf d i) s2 with
    | none => none
    | some (t1, u1) =>
      match visitListGo d recname co true ((shadowChildrenOf d i).getD []) (u1 ∪ s2) with
      | none => none
      | some (t2, u2) =>
        match visitListGo d recname co true
            ((getIdRefs d i (getAttributeOf d i "aria-owns")).map ChildNode.elem)
            (u2 ∪ u1 ∪ s2) with
        | none => none
        | some (t3, u3) => some (t1 ++ t2 ++ t3, u3 ∪ u2 ∪ u1 ∪ s2)

/-- Steps 2f+2h of the worker: name from content, wrapped in the
::before and ::after pseudo-content; a blank aggregate falls through. -/
def step2f (d : Dom) (recname : NameRec) (i : Nat) (o : AccessibleNameOptions)
    (childOptions : AccessibleNameOptions) (role : String) (s : Finset Nat) : NameStep :=
  if allowsNameFromContent role (o.embeddedInTargetElement = EmbeddedMode.descendant)
      ∨ o.embeddedInLabelledBy ≠ EmbeddedMode.none
      ∨ o.embeddedInLabel ≠ EmbeddedMode.none
      ∨ o.embeddedInTextAlternativeElement then
    match step2fTokens d recname childOptions i (insert i s) with
    | none => none
    | some (toks, t) =>
      let accessibleName :=
        getPseudoContent (pseudoBeforeOf d i)
          ++ String.join toks
          ++ getPseudoContent (pseudoAfterOf d i)
      if jsTrim accessibleName ≠ "" then some (.inl (accessibleName, t ∪ insert i s))
      else some (.inr (t ∪ insert i s))
  else some (.inr s)

/-- Step 2i of the worker plus the final default: the generic title
fallback for roles other than presentation/none (iframes always), then
the empty name. -/
def step2i (d : Dom) (i : Nat) (role : String) (s : Finset Nat) : String × Finset Nat :=
  if ¬(role = "presentation" ∨ role = "none") ∨ tagOf d i = "IFRAME" then
    let s2 := insert i s
    let title := (getAttributeOf d i "title").getD ""
    if jsTrim title ≠ "" then (title, s2) else ("", insert i s2)
  else ("", insert i s)

/-- One unfolding of getElementAccessibleNameInternal: cycle guard first,
then hidden exclusion, then steps 2b through 2i in source order. -/
def nameCore (d : Dom) (recname : NameRec) (i : Nat) (o : AccessibleNameOptions)
    (s : Finset Nat) : Option (String × Finset Nat) :=
  match elemAt d i with
  | none => some ("", s)
  | some _ =>
    if i ∈ s then some ("", s)
    else
      let childOptions := childOptionsOf o
      -- step 2a
      if !o.includeHidden && o.embeddedInLabelledBy ≠ EmbeddedMode.self
          && isElementHiddenForAria d i then
        some ("", insert i s)
      else
        let labelledBy := getAriaLabelledByElements d i
        let role := (getAriaRole d i).getD ""
        match
          stepSeq (step2b d recname o labelledBy s) fun s =>
          stepSeq (step2c d recname i o childOptions labelledBy role s) fun s =>
          stepSeq (step2d d i s) fun s =>
          stepSeq (step2e d recname i o childOptions labelledBy role s) fun s =>
          step2f d recname i o childOptions role s
        with
        | none => none
        | some (.inl v) => some v
        | some (.inr s) => some (step2i d i role s)

/-- The recursive worker, structurally bounded: each recursive call
consumes one unit of the bound, and the cycle guard makes a bound of
2 * d.elems.length + 2 sufficient for every input (proved below). -/
def getElementAccessibleNameInternal (d : Dom) : Nat → NameRec
  | 0 => fun _ _ _ => none
  | fuel + 1 => fun i o s => nameCore d (getElementAccessibleNameInternal d fuel) i o s

/-- Roles whose elements prohibit naming
(https://w3c.github.io/aria/#namefromprohibited). -/
def kProhibitedNamingRoles : List String :=
  ["caption", "code", "definition", "deletion", "emphasis", "generic",
   "insertion", "mark", "paragraph", "presentation", "strong", "subscript",
   "suggestion", "superscript", "term", "time"]

def accessibleNameBound (d : Dom) : Nat := 2 * d.elems.length + 2

def initialNameOptions (includeHidden : Bool) : AccessibleNameOptions where
  includeHidden := includeHidden
  embeddedInLabelledBy := .none
  embeddedInLabel := .none
  embeddedInTextAlternativeElement := false
  embeddedInTargetElement := .self

/-- The cache-free computation inside getElementAccessibleName: the
naming-prohibited check, then the recursive worker on a fresh context,
then normalization. none can only arise from the recursion bound. -/
def getElementAccessibleNameComputed (d : Dom) (i : Nat) (includeHidden : Bool) :
    Option String :=
  if kProhibitedNamingRoles.contains ((getAriaRole d i).getD "") then some ""
  else
    (getElementAccessibleNameInternal d (accessibleNameBound d) i
        (initialNameOptions includeHidden) ∅).map
      (fun p => normalizeAccessbileName p.1)

def getElementAccessibleName (d : Dom) (i : Nat) (includeHidden : Bool) : String :=
  (getElementAccessibleNameComputed d i includeHidden).getD ""

/-- The module-level cache state: the three per-pass caches (undefined
outside a pass) and the reference counter. The counter is an Int because
the source decrements it unconditionally. -/
structure AriaCaches where
  cacheAccessibleName : Option (List (Nat × String))
  cacheAccessibleNameHidden : Option (List (Nat × String))
  cacheIsHidden : Option (List (Nat × Bool))
  cachesCounter : Int
deriving Repr, DecidableEq

def initialAriaCaches : AriaCaches where
  cacheAccessibleName := none
  cacheAccessibleNameHidden := none
  cacheIsHidden := none
  cachesCounter := 0

/-- beginAriaCaches: increment the counter and create each cache only if
it does not exist yet (the source's nullish assignment), so nested opens
share one cache generation. -/
def beginAriaCaches (st : AriaCaches) : AriaCaches where
  cacheAccessibleName := some (st.cacheAccessibleName.getD [])
  cacheAccessibleNameHidden := some (st.cacheAccessibleNameHidden.getD [])
  cacheIsHidden := some (st.cacheIsHidden.getD [])
  cachesCounter := st.cachesCounter + 1

/-- endAriaCaches: decrement the counter and clear all caches exactly
when it reaches zero. -/
def endAriaCaches (st : AriaCaches) : AriaCaches :=
  if st.cachesCounter - 1 = 0 then
    { cacheAccessibleName := none, cacheAccessibleNameHidden := none,
      cacheIsHidden := none, cachesCounter := 0 }
  else { st with cachesCounter := st.cachesCounter - 1 }

def cacheLookup {β : Type} (m : List (Nat × β)) (i : Nat) : Option β :=
  ((m.find? (fun p => p.1 == i)).map (·.2))

/-- Map.set: the new binding shadows any previous one. -/
def cacheSet {β : Type} (m : List (Nat × β)) (i : Nat) (v : β) : List (Nat × β) :=
  (i, v) :: m

/-- The stateful getElementAccessibleName wrapper of the source: the
cache chosen by the includeHidden flag is consulted first; on a miss the
value is computed and stored (only when a pass is open). -/
def getElementAccessibleNameStateful (d : Dom) (i : Nat) (includeHidden : Bool)
    (st : AriaCaches) : String × AriaCaches :=
  let cache := if includeHidden then st.cacheAccessibleNameHidden else st.cacheAccessibleName
  match cache.bind (fun m => cacheLookup m i) with
  | some v => (v, st)
  | none =>
    let accessibleName := getElementAccessibleName d i includeHidden
    let st :=
      if includeHidden then
        { st with cacheAccessibleNameHidden :=
            st.cacheAccessibleNameHidden.map (fun m => cacheSet m i accessibleName) }
      else
        { st with cacheAccessibleName :=
            st.cacheAccessibleName.map (fun m => cacheSet m i accessibleName) }
    (accessibleName, st)

/-- The memoized hidden-state query of
belongsToDisplayNoneOrAriaHiddenOrNonSlotted, modelled at the level of
one element: cache hit, else pure recomputation stored when a pass is
open. -/
def belongsToHiddenStateful (d : Dom) (i : Nat) (st : AriaCaches) : Bool × AriaCaches :=
  match st.cacheIsHidden.bind (fun m => cacheLookup m i) with
  | some v => (v, st)
  | none =>
    let hidden := belongsToDisplayNoneOrAriaHiddenOrNonSlotted d i
    let st := { st with cacheIsHidden := st.cacheIsHidden.map (fun m => cacheSet m i hidden) }
    (hidden, st)

/-- Operations against the module state during and between passes. -/
inductive AriaOp where
  | beginOp
  | endOp
  | nameOp (i : Nat) (includeHidden : Bool)
  | hiddenOp (i : Nat)
deriving Repr, DecidableEq

def applyAriaOp (d : Dom) (st : AriaCaches) : AriaOp → AriaCaches
  | .beginOp => beginAriaCaches st
  | .endOp => endAriaCaches st
  | .nameOp i includeHidden => (getElementAccessibleNameStateful d i includeHidden st).2
  | .hiddenOp i => (belongsToHiddenStateful d i st).2

def runAriaOps (d : Dom) : List AriaOp → AriaCaches → AriaCaches
  | [], st => st
  | op :: rest, st => runAriaOps d rest (applyAriaOp d st op)

def ariaOpDelta : AriaOp → Int
  | .beginOp => 1
  | .endOp => -1
  | .nameOp _ _ => 0
  | .hiddenOp _ => 0

/-- Prefix balance of an operation sequence starting at a given open-scope
count: no prefix closes more scopes than were opened. -/
def BalancedFrom (c : Int) : List AriaOp → Prop
  | [] => True
  | op :: rest => 0 ≤ c + ariaOpDelta op ∧ BalancedFrom (c + ariaOpDelta op) rest

theorem find?_decomposition {α : Type} (p : α → Bool) :
    ∀ (l : List α) (a : α), l.find? p = some a →
      ∃ pre suf, l = pre ++ a :: suf ∧ ∀ t ∈ pre, p t = false := by
  intro l
  induction l with
  | nil => intro a h; simp [List.find?] at h
  | cons x xs ih =>
    intro a h
    rcases hx : p x with hfalse | htrue
    · rw [List.find?_cons_of_neg _ (by simp [hx])] at h
      obtain ⟨pre, suf, heq, hpre⟩ := ih a h
      exact ⟨x :: pre, suf, by simp [heq], by
        intro t ht
        rcases List.mem_cons.mp ht with rfl | hmem
        · exact hx
        · exact hpre t hmem⟩
    · rw [List.find?_cons_of_pos _ (by simp [hx])] at h
      injection h with h
      exact ⟨[], xs, by simp [h], by simp⟩

/-- Modelled from the spec sentence of claim C4 only, for comparison with
the source: tokens of the role attribute value obtained by splitting on
(runs of) whitespace characters. -/
def specWhitespaceTokensGo : List Char → List Char → List String
  | [], acc => if acc.isEmpty then [] else [acc.reverse.asString]
  | c :: rest, acc =>
    if jsWS c then
      if acc.isEmpty then specWhitespaceTokensGo rest []
      else acc.reverse.asString :: specWhitespaceTokensGo rest []
    else specWhitespaceTokensGo rest (c :: acc)

def specWhitespaceTokens (s : String) : List String :=
  specWhitespaceTokensGo s.toList []

/-- Modelled from the spec sentence of claim C4 only: the explicit role
as the claim words it — the first whitespace-delimited token of the role
attribute that is a valid concrete role name. -/
def specExplicitRoleByWhitespace (d : Dom) (i : Nat) : Option String :=
  (specWhitespaceTokens ((getAttributeOf d i "role").getD "")).find?
    (fun role => validRoles.contains role)

def domC4 : Dom :=
  ⟨[{ blankElem with tagName := "SPAN", attrs := [("role", "button\ncheckbox")] }]⟩

/-- C4 counterexample: on a role attribute whose tokens are separated by
a newline rather than a space, splitting on whitespace would yield the
explicit role button, but the source splits on the space character only
(trimming each token afterwards) and finds no valid token, so the
explicit role is absent. -/
theorem c4_counterexample :
    getAttributeOf domC4 0 "role" = some "button\ncheckbox"
    ∧ specExplicitRoleByWhitespace domC4 0 = some "button"
    ∧ getExplicitAriaRole domC4 0 = none := by decide

/-- C4 (amended): the explicit role is computed by splitting the role
attribute value on the space character, trimming each token, and
returning the first token that is a valid concrete role name; abstract
role names are excluded from the valid set even when spelled correctly,
and when no token qualifies the explicit role is absent. -/
theorem c4_explicit_role_first_valid_space_token (d : Dom) (i : Nat) :
    (∀ r, getExplicitAriaRole d i = some r →
      r ∈ validRoles ∧ r ∉ abstractRoles ∧
      ∃ pre suf,
        (jsSplitOnSpace ((getAttributeOf d i "role").getD "")).map jsTrim
          = pre ++ r :: suf
        ∧ ∀ t ∈ pre, t ∉ validRoles)
    ∧ (getExplicitAriaRole d i = none →
        ∀ t ∈ (jsSplitOnSpace ((getAttributeOf d i "role").getD "")).map jsTrim,
          t ∉ validRoles)
    ∧ (∀ a ∈ abstractRoles, a ∉ validRoles) := by
  refine ⟨?_, ?_, by decide⟩
  · intro r hr
    unfold getExplicitAriaRole at hr
    have hmem := List.mem_of_find?_eq_some hr
    have hp := List.find?_some hr
    have hval : r ∈ validRoles := by simpa using hp
    refine ⟨hval, ?_, ?_⟩
    · unfold validRoles at hval
      have hfil := List.mem_filter.mp hval
      intro habs
      have hcontains : abstractRoles.contains r = true := by simpa using habs
      rw [hcontains] at hfil
      simp at hfil
    · obtain ⟨pre, suf, heq, hpre⟩ := find?_decomposition _ _ _ hr
      refine ⟨pre, suf, heq, ?_⟩
      intro t ht hmemt
      have hc := hpre t ht
      have : validRoles.contains t = true := by simpa using hmemt
      rw [this] at hc
      simp at hc
  · intro hnone t ht hmemt
    unfold getExplicitAriaRole at hnone
    have hc := List.find?_eq_none.mp hnone t ht
    have : validRoles.contains t = true := by simpa using hmemt
    rw [this] at hc
    simp at hc

def domC4w : Dom :=
  ⟨[{ blankElem with tagName := "SPAN", attrs := [("role", "input button")] }]⟩

theorem c4_witness :
    "button" ∈ validRoles ∧ "button" ∉ abstractRoles ∧
    ∃ pre suf,
      (jsSplitOnSpace ((getAttributeOf domC4w 0 "role").getD "")).map jsTrim
        = pre ++ "button" :: suf
      ∧ ∀ t ∈ pre, t ∉ validRoles :=
  (c4_explicit_role_first_valid_space_token domC4w 0).1 "button" (by decide)

def domC5 : Dom := ⟨[
  { blankElem with tagName := "UL", attrs := [("role", "presentation")], childNodes := [.elem 1] },
  { blankElem with tagName := "LI", parentElement := some 0, childNodes := [.text "x" true false] }]⟩

/-- C5: evaluation of the source at the failing input. A list item whose
direct ul parent carries explicit role presentation and no global ARIA
attribute resolves to listitem, not presentation: the source's
hasPresentationConflictResolution returns the negation of
hasGlobalAriaAttribute while both call sites keep the polarity that the
un-negated definition requires, so the inheritance walk demands a global
ARIA attribute on the ancestor (and getAriaRole drops an explicit
presentation role precisely when no global attribute is present, as the
last conjunct shows on the ul itself). -/
theorem c5_code_evaluated_at_failing_input :
    getExplicitAriaRole domC5 0 = some "presentation"
    ∧ hasGlobalAriaAttribute domC5 0 = false
    ∧ parentElementOrShadowHostOf domC5 1 = some 0
    ∧ getExplicitAriaRole domC5 1 = none
    ∧ getAriaRole domC5 1 = some "listitem"
    ∧ getAriaRole domC5 0 = some "list" := by decide

def domC8 : Dom := ⟨[
  { blankElem with tagName := "SPAN", attrs := [("role", "checkbox"), ("aria-checked", "mixed")] },
  { blankElem with tagName := "SPAN" }]⟩

/-- C8: an element (not a native input) with checkbox role and
aria-checked mixed reports mixed when the caller allows mixed values and
false when the caller collapses mixed to a boolean; and for elements
outside the checked role allow-list that are not native inputs,
getChecked returns the explicit not-applicable sentinel. -/
theorem c8_checked_mixed_and_sentinel (d : Dom) (i : Nat)
    (htag : tagOf d i ≠ "INPUT")
    (hrole : getAriaRole d i = some "checkbox")
    (hattr : getAttributeOf d i "aria-checked" = some "mixed") :
    getChecked d i true = .mixed
    ∧ getChecked d i false = .bool false
    ∧ (∀ j, tagOf d j ≠ "INPUT" →
        ((getAriaRole d j).getD "") ∉ kAriaCheckedRoles →
        ∀ allowMixed, getChecked d j allowMixed = .error) := by
  have htag' : (tagOf d i == "INPUT") = false := by
    simpa using htag
  refine ⟨?_, ?_, ?_⟩
  · unfold getChecked
    rw [hrole, hattr]
    simp [htag']
    decide
  · unfold getChecked
    rw [hrole, hattr]
    simp [htag']
    decide
  · intro j htagj hrolej allowMixed
    have htagj' : (tagOf d j == "INPUT") = false := by simpa using htagj
    have hrolej' : kAriaCheckedRoles.contains ((getAriaRole d j).getD "") = false := by
      simpa using hrolej
    unfold getChecked
    simp [htagj']
    exact fun h => absurd h hrolej

theorem c8_witness :
    getChecked domC8 0 true = .mixed
    ∧ getChecked domC8 0 false = .bool false
    ∧ getChecked domC8 1 true = .error :=
  have h := c8_checked_mixed_and_sentinel domC8 0 (by decide) (by decide) (by decide)
  ⟨h.1, h.2.1, h.2.2 1 (by decide) (by decide) true⟩

/-- The ancestor-or-self chain through light-tree parents (the walk of
belongsToDisabledFieldSet); a structural bound of the index itself
suffices since parents have smaller indices. -/
def lightChainAux (d : Dom) : Nat → Nat → List Nat
  | 0, i => [i]
  | fuel + 1, i =>
    i :: (match parentElementOf d i with
          | some p => lightChainAux d fuel p
          | none => [])

def lightChain (d : Dom) (i : Nat) : List Nat := lightChainAux d i i

/-- The ancestor-or-self chain through parent-or-shadow-host links (the
walk of hasExplicitAriaDisabled). -/
def hostChainAux (d : Dom) : Nat → Nat → List Nat
  | 0, i => [i]
  | fuel + 1, i =>
    i :: (match parentElementOrShadowHostOf d i with
          | some p => hostChainAux d fuel p
          | none => [])

def hostChain (d : Dom) (i : Nat) : List Nat := hostChainAux d i i

/-- A node decides the aria-disabled walk exactly when its own role is in
the allow-list and its aria-disabled attribute lowercases to true or
false. -/
def ariaDisabledDecider (d : Dom) (j : Nat) : Option Bool :=
  if kAriaDisabledRoles.contains ((getAriaRole d j).getD "") then
    let v := jsToLower ((getAttributeOf d j "aria-disabled").getD "")
    if v == "true" then some true
    else if v == "false" then some false
    else none
  else none

def domC7x : Dom := ⟨[
  { blankElem with tagName := "DIV", attrs := [("aria-disabled", "true")], childNodes := [.elem 1] },
  { blankElem with tagName := "INPUT", parentElement := some 0 }]⟩

/-- C7 counterexample: an input whose role (textbox) is in the
aria-disabled allow-list, under an ancestor that is the first node of the
upward walk carrying aria-disabled set exactly to "true"; the claim says
this first match decides disabled = true, but getAriaDisabled returns
false because the ancestor's own role (a plain div has none) is outside
the allow-list, so its attribute is skipped. -/
theorem c7_counterexample :
    getAriaRole domC7x 1 = some "textbox"
    ∧ kAriaDisabledRoles.contains "textbox" = true
    ∧ getAttributeOf domC7x 0 "aria-disabled" = some "true"
    ∧ parentElementOrShadowHostOf domC7x 1 = some 0
    ∧ getAttributeOf domC7x 1 "aria-disabled" = none
    ∧ getAriaDisabled domC7x 1 = false := by decide

theorem belongs_of_lightChain (d : Dom) :
    ∀ fuel i j, j ∈ lightChainAux d fuel i → tagOf d j = "FIELDSET" →
      hasAttributeOf d j "disabled" = true →
      belongsToDisabledFieldSetAux d (fuel + 1) (some i) = true := by
  intro fuel
  induction fuel with
  | zero =>
    intro i j hmem hfs hdis
    simp [lightChainAux] at hmem
    subst hmem
    simp [belongsToDisabledFieldSetAux, hfs, hdis]
  | succ n ih =>
    intro i j hmem hfs hdis
    simp only [lightChainAux, List.mem_cons] at hmem
    rcases hmem with rfl | hmem
    · simp [belongsToDisabledFieldSetAux, hfs, hdis]
    · rw [belongsToDisabledFieldSetAux]
      split
      · rfl
      · cases hp : parentElementOf d i with
        | none => rw [hp] at hmem; simp at hmem
        | some p =>
          rw [hp] at hmem
          exact ih p j hmem hfs hdis

theorem hasExplicitAriaDisabled_chain (d : Dom) :
    ∀ fuel i, hasExplicitAriaDisabledAux d (fuel + 1) (some i)
      = ((hostChainAux d fuel i).findSome? (ariaDisabledDecider d)).getD false := by
  intro fuel
  induction fuel with
  | zero =>
    intro i
    by_cases h1 : ((getAriaRole d i).getD "") ∈ kAriaDisabledRoles
    · by_cases h2 : jsToLower ((getAttributeOf d i "aria-disabled").getD "") = "true"
      · simp [hasExplicitAriaDisabledAux, hostChainAux, ariaDisabledDecider,
          List.findSome?, h1, h2]
      · by_cases h3 : jsToLower ((getAttributeOf d i "aria-disabled").getD "") = "false"
        · simp [hasExplicitAriaDisabledAux, hostChainAux, ariaDisabledDecider,
            List.findSome?, h1, h2, h3]
        · cases hp : parentElementOrShadowHostOf d i <;>
            simp [hasExplicitAriaDisabledAux, hostChainAux, ariaDisabledDecider,
              List.findSome?, h1, h2, h3, hp]
    · cases hp : parentElementOrShadowHostOf d i <;>
        simp [hasExplicitAriaDisabledAux, hostChainAux, ariaDisabledDecider,
          List.findSome?, h1, hp]
  | succ n ih =>
    intro i
    by_cases h1 : ((getAriaRole d i).getD "") ∈ kAriaDisabledRoles
    · by_cases h2 : jsToLower ((getAttributeOf d i "aria-disabled").getD "") = "true"
      · simp [hasExplicitAriaDisabledAux, hostChainAux, ariaDisabledDecider,
          List.findSome?, h1, h2]
      · by_cases h3 : jsToLower ((getAttributeOf d i "aria-disabled").getD "") = "false"
        · simp [hasExplicitAriaDisabledAux, hostChainAux, ariaDisabledDecider,
            List.findSome?, h1, h2, h3]
        · cases hp : parentElementOrShadowHostOf d i with
          | none =>
            simp [hasExplicitAriaDisabledAux, hostChainAux, ariaDisabledDecider,
              List.findSome?, h1, h2, h3, hp]
          | some p =>
            simpa [hasExplicitAriaDisabledAux, hostChainAux, ariaDisabledDecider,
              List.findSome?, h1, h2, h3, hp] using ih p
    · cases hp : parentElementOrShadowHostOf d i with
      | none =>
        simp [hasExplicitAriaDisabledAux, hostChainAux, ariaDisabledDecider,
          List.findSome?, h1, hp]
      | some p =>
        simpa [hasExplicitAriaDisabledAux, hostChainAux, ariaDisabledDecider,
          List.findSome?, h1, hp] using ih p

/-- C7 (amended): an input that is a light-tree descendant of a fieldset
carrying the disabled attribute reports disabled = true (this walk stops
at shadow boundaries: at a node with no light-tree parent it ends even
when a shadow host exists); and the aria-disabled lookup walks upward
across shadow host boundaries to the first node whose own role is in the
allow-list and whose aria-disabled lowercases to exactly "true" or
"false", that first qualifying node deciding the result, with absence of
any qualifying node yielding false. Every other node is skipped and the
walk continues upward: a node carrying the attribute but whose role is
outside the allow-list, and equally a node whose role is in the list but
whose attribute value is neither "true" nor "false" (ariaDisabledDecider
returns none in both cases, and findSome? moves to the next ancestor). -/
theorem c7_disabled_amended (d : Dom) (i j : Nat)
    (htag : tagOf d i = "INPUT")
    (hj : j ∈ lightChain d i)
    (hfs : tagOf d j = "FIELDSET")
    (hdis : hasAttributeOf d j "disabled" = true) :
    getAriaDisabled d i = true
    ∧ (∀ k, parentElementOf d k = none → tagOf d k ≠ "FIELDSET" →
        belongsToDisabledFieldSet d (some k) = false)
    ∧ (∀ k, hasExplicitAriaDisabled d (some k)
        = ((hostChain d k).findSome? (ariaDisabledDecider d)).getD false) := by
  refine ⟨?_, ?_, ?_⟩
  · unfold getAriaDisabled
    have hbelongs : belongsToDisabledFieldSet d (some i) = true :=
      belongs_of_lightChain d i i j hj hfs hdis
    simp [htag, hbelongs]
  · intro k hpar hk
    have hk' : (tagOf d k == "FIELDSET") = false := by simpa using hk
    unfold belongsToDisabledFieldSet
    simp only [Option.getD]
    rw [belongsToDisabledFieldSetAux]
    simp only [hk', Bool.false_and, if_neg (by simp : ¬(false = true))]
    rw [hpar]
    cases k <;> simp [belongsToDisabledFieldSetAux]
  · intro k
    exact hasExplicitAriaDisabled_chain d k k

def domC7w : Dom := ⟨[
  { blankElem with tagName := "FIELDSET", attrs := [("disabled", "")], childNodes := [.elem 1] },
  { blankElem with tagName := "INPUT", parentElement := some 0 }]⟩

theorem c7_witness :
    getAriaDisabled domC7w 1 = true
    ∧ hasExplicitAriaDisabled domC7w (some 1)
      = ((hostChain domC7w 1).findSome? (ariaDisabledDecider domC7w)).getD false :=
  have h := c7_disabled_amended domC7w 1 0 (by decide) (by decide) (by decide) (by decide)
  ⟨h.1, h.2.2 1⟩

theorem cacheLookup_cacheSet {β : Type} (m : List (Nat × β)) (i : Nat) (v : β) :
    cacheLookup (cacheSet m i v) i = some v := by
  simp [cacheLookup, cacheSet, List.find?]

/-- C3: within one open pass scope over an unchanged tree, calling
getElementAccessibleName twice on the same element with the same
includeHidden flag returns identical strings — the second call is served
from the pass cache, or recomputes the same pure value when the cache is
absent. -/
theorem c3_idempotent_within_scope (d : Dom) (i : Nat) (includeHidden : Bool)
    (st : AriaCaches) (hopen : 0 < st.cachesCounter) :
    (getElementAccessibleNameStateful d i includeHidden st).1
      = (getElementAccessibleNameStateful d i includeHidden
          (getElementAccessibleNameStateful d i includeHidden st).2).1 := by
  clear hopen
  unfold getElementAccessibleNameStateful
  cases includeHidden with
  | false =>
    simp only [Bool.false_eq_true, if_false]
    cases hc : st.cacheAccessibleName with
    | none => simp
    | some m =>
      cases hl : cacheLookup m i with
      | some v => simp [hc, hl]
      | none => simp [hc, hl, cacheLookup_cacheSet]
  | true =>
    simp only [if_true]
    cases hc : st.cacheAccessibleNameHidden with
    | none => simp
    | some m =>
      cases hl : cacheLookup m i with
      | some v => simp [hc, hl]
      | none => simp [hc, hl, cacheLookup_cacheSet]

def c3SampleDom : Dom :=
  ⟨[{ blankElem with tagName := "BUTTON", childNodes := [.text "Go" true false] }]⟩

theorem c3_witness :
    0 < (beginAriaCaches initialAriaCaches).cachesCounter
    ∧ (getElementAccessibleNameStateful c3SampleDom 0 false
          (beginAriaCaches initialAriaCaches)).1
      = (getElementAccessibleNameStateful c3SampleDom 0 false
          (getElementAccessibleNameStateful c3SampleDom 0 false
            (beginAriaCaches initialAriaCaches)).2).1 :=
  ⟨by decide,
   c3_idempotent_within_scope c3SampleDom 0 false (beginAriaCaches initialAriaCaches)
     (by decide)⟩

/-- C10: the results for includeHidden = true and includeHidden = false
live in two separate caches keyed by element: a call with one flag is
unaffected by arbitrary contents of the other flag's cache, and writes
only its own flag's cache, so a name computed under one flag is never
returned to a call made with the other flag. -/
theorem c10_flag_caches_isolated (d : Dom) (i : Nat) (st : AriaCaches)
    (x : Option (List (Nat × String))) :
    ((getElementAccessibleNameStateful d i false
        { st with cacheAccessibleNameHidden := x }).1
      = (getElementAccessibleNameStateful d i false st).1)
    ∧ ((getElementAccessibleNameStateful d i true
        { st with cacheAccessibleName := x }).1
      = (getElementAccessibleNameStateful d i true st).1)
    ∧ (getElementAccessibleNameStateful d i false st).2.cacheAccessibleNameHidden
      = st.cacheAccessibleNameHidden
    ∧ (getElementAccessibleNameStateful d i true st).2.cacheAccessibleName
      = st.cacheAccessibleName := by
  unfold getElementAccessibleNameStateful
  refine ⟨?_, ?_, ?_, ?_⟩
  · cases hc : st.cacheAccessibleName with
    | none => simp
    | some m => cases hl : cacheLookup m i <;> simp [hc, hl]
  · cases hc : st.cacheAccessibleNameHidden with
    | none => simp
    | some m => cases hl : cacheLookup m i <;> simp [hc, hl]
  · cases hc : st.cacheAccessibleName with
    | none => simp
    | some m => cases hl : cacheLookup m i <;> simp [hc, hl]
  · cases hc : st.cacheAccessibleNameHidden with
    | none => simp
    | some m => cases hl : cacheLookup m i <;> simp [hc, hl]

def cachesCleared (st : AriaCaches) : Prop :=
  st.cacheAccessibleName = none ∧ st.cacheAccessibleNameHidden = none
    ∧ st.cacheIsHidden = none

theorem stateful_counter (d : Dom) (i : Nat) (f : Bool) (st : AriaCaches) :
    (getElementAccessibleNameStateful d i f st).2.cachesCounter = st.cachesCounter := by
  unfold getElementAccessibleNameStateful
  split <;> (dsimp only []; split <;> rfl)

theorem hiddenStateful_counter (d : Dom) (i : Nat) (st : AriaCaches) :
    (belongsToHiddenStateful d i st).2.cachesCounter = st.cachesCounter := by
  unfold belongsToHiddenStateful
  split
  · rfl
  · simp

theorem applyAriaOp_counter (d : Dom) (st : AriaCaches) (op : AriaOp) :
    (applyAriaOp d st op).cachesCounter = st.cachesCounter + ariaOpDelta op := by
  cases op with
  | beginOp => simp [applyAriaOp, beginAriaCaches, ariaOpDelta]
  | endOp =>
    simp only [applyAriaOp, endAriaCaches, ariaOpDelta]
    split <;> (dsimp only; omega)
  | nameOp i f => simpa [applyAriaOp, ariaOpDelta] using stateful_counter d i f st
  | hiddenOp i => simpa [applyAriaOp, ariaOpDelta] using hiddenStateful_counter d i st

theorem stateful_preserves_cleared (d : Dom) (i : Nat) (f : Bool) (st : AriaCaches)
    (h : cachesCleared st) : cachesCleared (getElementAccessibleNameStateful d i f st).2 := by
  obtain ⟨h1, h2, h3⟩ := h
  unfold getElementAccessibleNameStateful
  cases f <;> simp [h1, h2, cachesCleared, h3]

theorem hiddenStateful_preserves_cleared (d : Dom) (i : Nat) (st : AriaCaches)
    (h : cachesCleared st) : cachesCleared (belongsToHiddenStateful d i st).2 := by
  obtain ⟨h1, h2, h3⟩ := h
  unfold belongsToHiddenStateful
  simp [h3, cachesCleared, h1, h2]

theorem runAriaOps_inv (d : Dom) :
    ∀ ops st, BalancedFrom st.cachesCounter ops →
      0 ≤ st.cachesCounter → (st.cachesCounter = 0 → cachesCleared st) →
      0 ≤ (runAriaOps d ops st).cachesCounter
      ∧ ((runAriaOps d ops st).cachesCounter = 0 →
          cachesCleared (runAriaOps d ops st)) := by
  intro ops
  induction ops with
  | nil =>
    intro st _ h1 h2
    exact ⟨h1, h2⟩
  | cons op rest ih =>
    intro st hbal hpos hcl
    obtain ⟨hstep, hrest⟩ := hbal
    rw [runAriaOps]
    have hcounter := applyAriaOp_counter d st op
    apply ih
    · rw [hcounter]; exact hrest
    · rw [hcounter]; exact hstep
    · rw [hcounter]
      intro hz
      cases op with
      | beginOp =>
        exfalso
        simp [ariaOpDelta] at hz
        omega
      | endOp =>
        have hc : st.cachesCounter - 1 = 0 := by
          simpa [ariaOpDelta] using hz
        simp [applyAriaOp, endAriaCaches, hc, cachesCleared]
      | nameOp i f =>
        apply stateful_preserves_cleared
        apply hcl
        simpa [ariaOpDelta] using hz
      | hiddenOp i =>
        apply hiddenStateful_preserves_cleared
        apply hcl
        simpa [ariaOpDelta] using hz

/-- C9: no accessible-name or hidden-state value cached during one pass
scope is observed during a disjoint later pass scope. For any balanced
operation sequence from the initial state whose open-scope count has
returned to zero, the last close has cleared all three caches; a fresh
begin then creates empty caches, so the first lookup of any element
recomputes the pure value instead of observing an old entry; and a begin
while a cache exists keeps that cache generation (nested opens share it)
while incrementing the reference count. -/
theorem c9_disjoint_scopes (d : Dom) (ops : List AriaOp)
    (hbal : BalancedFrom 0 ops)
    (hzero : (runAriaOps d ops initialAriaCaches).cachesCounter = 0) :
    cachesCleared (runAriaOps d ops initialAriaCaches)
    ∧ (∀ i f, (getElementAccessibleNameStateful d i f
        (beginAriaCaches (runAriaOps d ops initialAriaCaches))).1
        = getElementAccessibleName d i f)
    ∧ (∀ i, (belongsToHiddenStateful d i
        (beginAriaCaches (runAriaOps d ops initialAriaCaches))).1
        = belongsToDisplayNoneOrAriaHiddenOrNonSlotted d i)
    ∧ (∀ st : AriaCaches, (beginAriaCaches st).cachesCounter = st.cachesCounter + 1
        ∧ ∀ m, st.cacheAccessibleName = some m →
            (beginAriaCaches st).cacheAccessibleName = some m) := by
  have hinv := runAriaOps_inv d ops initialAriaCaches
    (by simpa [initialAriaCaches] using hbal)
    (by simp [initialAriaCaches])
    (by intro; exact ⟨rfl, rfl, rfl⟩)
  have hcl := hinv.2 hzero
  obtain ⟨h1, h2, h3⟩ := hcl
  refine ⟨⟨h1, h2, h3⟩, ?_, ?_, ?_⟩
  · intro i f
    unfold getElementAccessibleNameStateful beginAriaCaches
    cases f <;> simp [h1, h2, cacheLookup]
  · intro i
    unfold belongsToHiddenStateful beginAriaCaches
    simp [h3, cacheLookup]
  · intro st
    exact ⟨by simp [beginAriaCaches], fun m hm => by simp [beginAriaCaches, hm]⟩

def c9SampleDom : Dom :=
  ⟨[{ blankElem with tagName := "BUTTON", childNodes := [.text "Go" true false] }]⟩

def c9SampleOps : List AriaOp := [.beginOp, .nameOp 0 false, .hiddenOp 0, .endOp]

theorem c9_witness :
    cachesCleared (runAriaOps c9SampleDom c9SampleOps initialAriaCaches)
    ∧ (getElementAccessibleNameStateful c9SampleDom 0 false
        (beginAriaCaches (runAriaOps c9SampleDom c9SampleOps initialAriaCaches))).1
      = getElementAccessibleName c9SampleDom 0 false :=
  have h := c9_disjoint_scopes c9SampleDom c9SampleOps
    (by norm_num [BalancedFrom, ariaOpDelta, c9SampleOps]) (by decide)
  ⟨h.1, h.2.1 0 false⟩

/-- Number of document elements not yet in the visited set: the first
component of the termination measure of the recursive worker. -/
def unvisCount (d : Dom) (s : Finset Nat) : Nat :=
  ((Finset.range d.elems.length) \ s).card

/-- Second component of the termination measure: a call still entitled to
run the labelledby resolution of step 2b ranks above one that is not. -/
def lbRank (o : AccessibleNameOptions) : Nat :=
  if o.embeddedInLabelledBy = EmbeddedMode.none then 1 else 0

theorem lbRank_le_one (o : AccessibleNameOptions) : lbRank o ≤ 1 := by
  unfold lbRank; split <;> omega

theorem unvis_mono (d : Dom) {s t : Finset Nat} (h : s ⊆ t) :
    unvisCount d t ≤ unvisCount d s :=
  Finset.card_le_card (Finset.sdiff_subset_sdiff (le_refl _) h)

theorem unvis_insert_lt (d : Dom) {i : Nat} {s t : Finset Nat}
    (hlen : i < d.elems.length) (hni : i ∉ s) (hsub : s ⊆ t) :
    unvisCount d (insert i t) < unvisCount d s := by
  apply Finset.card_lt_card
  have hsub2 : (Finset.range d.elems.length \ insert i t)
      ⊆ (Finset.range d.elems.length \ s) :=
    Finset.sdiff_subset_sdiff (le_refl _)
      (hsub.trans (Finset.subset_insert i t))
  rw [Finset.ssubset_iff_of_subset hsub2]
  exact ⟨i, by simp [Finset.mem_sdiff, Finset.mem_range, hlen, hni], by simp⟩

theorem elemAt_lt_length {d : Dom} {i : Nat} {e : Elem}
    (h : elemAt d i = some e) : i < d.elems.length :=
  (List.getElem?_eq_some.mp h).1

theorem nameListGo_isSome_of (recname : NameRec) (o : AccessibleNameOptions)
    {B : Finset Nat} (H : ∀ j t, B ⊆ t → (recname j o t).isSome) :
    ∀ l s, B ⊆ s → (nameListGo recname o l s).isSome := by
  intro l
  induction l with
  | nil => intro s _; simp [nameListGo]
  | cons j rest ih =>
    intro s hs
    rw [nameListGo]
    obtain ⟨⟨r, t⟩, ht⟩ := Option.isSome_iff_exists.mp (H j s hs)
    rw [ht]
    dsimp only
    obtain ⟨⟨rs, u⟩, hu⟩ := Option.isSome_iff_exists.mp
      (ih (t ∪ s) (hs.trans Finset.subset_union_right))
    rw [hu]
    simp

theorem visitListGo_isSome_of (d : Dom) (recname : NameRec)
    (o : AccessibleNameOptions) (sk : Bool) {B : Finset Nat}
    (H : ∀ j t, B ⊆ t → (recname j o t).isSome) :
    ∀ l s, B ⊆ s → (visitListGo d recname o sk l s).isSome := by
  intro l
  induction l with
  | nil => intro s _; simp [visitListGo]
  | cons cn rest ih =>
    intro s hs
    cases cn with
    | elem j =>
      rw [visitListGo]
      split
      · exact ih s hs
      · obtain ⟨⟨r, t⟩, ht⟩ := Option.isSome_iff_exists.mp (H j s hs)
        rw [ht]
        dsimp only
        obtain ⟨⟨rs, u⟩, hu⟩ := Option.isSome_iff_exists.mp
          (ih (t ∪ s) (hs.trans Finset.subset_union_right))
        rw [hu]
        simp
    | text c v a =>
      rw [visitListGo]
      split
      · exact ih s hs
      · obtain ⟨⟨rs, u⟩, hu⟩ := Option.isSome_iff_exists.mp (ih s hs)
        rw [hu]
        simp

theorem step2b_isSome (d : Dom) (recname : NameRec) (o : AccessibleNameOptions)
    (lb : Option (List Nat)) (s : Finset Nat)
    (H : o.embeddedInLabelledBy = EmbeddedMode.none →
      ∀ j t, s ⊆ t → (recname j
        { o with
          embeddedInLabelledBy := .self,
          embeddedInTargetElement := .none,
          embeddedInLabel := .none,
          embeddedInTextAlternativeElement := false } t).isSome) :
    (step2b d recname o lb s).isSome := by
  unfold step2b
  split
  · rename_i hnone
    obtain ⟨⟨rs, t⟩, ht⟩ := Option.isSome_iff_exists.mp
      (nameListGo_isSome_of recname _ (H hnone) (lb.getD []) s (le_refl _))
    rw [ht]
    dsimp only
    split <;> simp
  · simp

theorem step2b_inr_subset (d : Dom) (recname : NameRec) (o : AccessibleNameOptions)
    (lb : Option (List Nat)) (s s' : Finset Nat)
    (h : step2b d recname o lb s = some (.inr s')) : s ⊆ s' := by
  unfold step2b at h
  split at h
  · split at h
    · simp at h
    · dsimp only at h
      split at h
      · simp at h
      · simp only [Option.some.injEq, Sum.inr.injEq] at h
        rw [← h]
        exact Finset.subset_union_right
  · simp only [Option.some.injEq, Sum.inr.injEq] at h
    rw [← h]

theorem step2c_isSome (d : Dom) (recname : NameRec) (i : Nat)
    (o co : AccessibleNameOptions) (lb : Option (List Nat)) (role : String)
    {s0 s : Finset Nat} (hs : s0 ⊆ s)
    (HB : ∀ j o2 t, insert i s0 ⊆ t → (recname j o2 t).isSome) :
    (step2c d recname i o co lb role s).isSome := by
  have hlist : ∀ l t, insert i s0 ⊆ t → (nameListGo recname co l t).isSome :=
    fun l t h => nameListGo_isSome_of recname co (fun j t' h' => HB j co t' h') l t h
  unfold step2c
  split
  · dsimp only
    split
    · split
      · split <;> simp
      · split
        · split
          · rename_i hql
            exact absurd hql (Option.isSome_iff_ne_none.mp
              (hlist _ (insert i s) (Finset.insert_subset_insert _ hs)))
          · simp
        · split
          · split
            · simp
            · split <;> simp
          · split <;> simp
    · simp
  · simp

theorem step2c_inr_eq (d : Dom) (recname : NameRec) (i : Nat)
    (o co : AccessibleNameOptions) (lb : Option (List Nat)) (role : String)
    (s s' : Finset Nat)
    (h : step2c d recname i o co lb role s = some (.inr s')) : s' = s := by
  unfold step2c at h
  split at h
  case isTrue =>
    dsimp only at h
    repeat' split at h
    all_goals first
      | (simp only [Option.some.injEq, Sum.inr.injEq] at h
         exact h.symm)
      | (exact absurd h (by simp))
  case isFalse =>
    simp only [Option.some.injEq, Sum.inr.injEq] at h
    exact h.symm

theorem stepSeq_isSome {r : NameStep} {k : Finset Nat → NameStep}
    (hr : r.isSome) (hk : ∀ s', r = some (.inr s') → (k s').isSome) :
    (stepSeq r k).isSome := by
  cases r with
  | none => simp at hr
  | some v =>
    cases v with
    | inl x => simp [stepSeq]
    | inr s' => exact hk s' rfl

theorem stepSeq_inr_elim {r : NameStep} {k : Finset Nat → NameStep} {s2 : Finset Nat}
    (h : stepSeq r k = some (.inr s2)) :
    ∃ s1, r = some (.inr s1) ∧ k s1 = some (.inr s2) := by
  cases r with
  | none => simp [stepSeq] at h
  | some v =>
    cases v with
    | inl x => simp [stepSeq] at h
    | inr s1 => exact ⟨s1, rfl, h⟩

theorem assocLabels_isSome (recname : NameRec) (o : AccessibleNameOptions)
    (labels : List Nat) {B t : Finset Nat}
    (HB : ∀ j o2 t', B ⊆ t' → (recname j o2 t').isSome) (ht : B ⊆ t) :
    (getAccessibleNameFromAssociatedLabels recname o labels t).isSome := by
  unfold getAccessibleNameFromAssociatedLabels
  obtain ⟨⟨rs, u⟩, hu⟩ := Option.isSome_iff_exists.mp
    (nameListGo_isSome_of recname _ (fun j t' h' => HB j _ t' h') labels t ht)
  rw [hu]
  simp

theorem assocLabels_no_inr (recname : NameRec) (o : AccessibleNameOptions)
    (labels : List Nat) (t s' : Finset Nat) :
    getAccessibleNameFromAssociatedLabels recname o labels t ≠ some (.inr s') := by
  unfold getAccessibleNameFromAssociatedLabels
  split <;> simp

theorem checkInputButtonName_isSome (d : Dom) (i : Nat) (s : Finset Nat) :
    (checkInputButtonName d i s).isSome := by
  unfold checkInputButtonName
  repeat' split
  all_goals simp [apply_ite Option.isSome]

theorem checkInputImageName_isSome (d : Dom) (recname : NameRec) (i : Nat)
    (o : AccessibleNameOptions) {s0 s : Finset Nat} (hs : s0 ⊆ s)
    (HB : ∀ j o2 t, insert i s0 ⊆ t → (recname j o2 t).isSome) :
    (checkInputImageName d recname i o s).isSome := by
  unfold checkInputImageName
  split
  · dsimp only
    split
    · exact assocLabels_isSome recname o _ HB (Finset.insert_subset_insert _ hs)
    · repeat' split
      all_goals simp [apply_ite Option.isSome]
  · simp

theorem checkButtonTagName_isSome (d : Dom) (recname : NameRec) (i : Nat)
    (o : AccessibleNameOptions) (lb : Option (List Nat)) {s0 s : Finset Nat}
    (hs : s0 ⊆ s)
    (HB : ∀ j o2 t, insert i s0 ⊆ t → (recname j o2 t).isSome) :
    (checkButtonTagName d recname i o lb s).isSome := by
  unfold checkButtonTagName
  split
  · dsimp only
    split
    · exact assocLabels_isSome recname o _ HB (Finset.insert_subset_insert _ hs)
    · simp
  · simp

theorem checkOutputName_isSome (d : Dom) (recname : NameRec) (i : Nat)
    (o : AccessibleNameOptions) (lb : Option (List Nat)) {s0 s : Finset Nat}
    (hs : s0 ⊆ s)
    (HB : ∀ j o2 t, insert i s0 ⊆ t → (recname j o2 t).isSome) :
    (checkOutputName d recname i o lb s).isSome := by
  unfold checkOutputName
  split
  · dsimp only
    split
    · exact assocLabels_isSome recname o _ HB (Finset.insert_subset_insert _ hs)
    · simp
  · simp

theorem checkTextFieldName_isSome (d : Dom) (recname : NameRec) (i : Nat)
    (o : AccessibleNameOptions) (lb : Option (List Nat)) {s0 s : Finset Nat}
    (hs : s0 ⊆ s)
    (HB : ∀ j o2 t, insert i s0 ⊆ t → (recname j o2 t).isSome) :
    (checkTextFieldName d recname i o lb s).isSome := by
  unfold checkTextFieldName
  split
  · dsimp only
    split
    · exact assocLabels_isSome recname o _ HB (Finset.insert_subset_insert _ hs)
    · split <;> simp
  · simp

theorem checkFieldsetName_isSome (d : Dom) (recname : NameRec) (i : Nat)
    (co : AccessibleNameOptions) (lb : Option (List Nat)) {s0 s : Finset Nat}
    (hs : s0 ⊆ s)
    (HB : ∀ j o2 t, insert i s0 ⊆ t → (recname j o2 t).isSome) :
    (checkFieldsetName d recname i co lb s).isSome := by
  unfold checkFieldsetName
  split
  · dsimp only
    split
    · split
      · rename_i hql
        exact absurd hql (Option.isSome_iff_ne_none.mp
          (HB _ _ _ (Finset.insert_subset_insert _ hs)))
      · simp
    · simp
  · simp

theorem checkFigureName_isSome (d : Dom) (recname : NameRec) (i : Nat)
    (co : AccessibleNameOptions) (lb : Option (List Nat)) {s0 s : Finset Nat}
    (hs : s0 ⊆ s)
    (HB : ∀ j o2 t, insert i s0 ⊆ t → (recname j o2 t).isSome) :
    (checkFigureName d recname i co lb s).isSome := by
  unfold checkFigureName
  split
  · dsimp only
    split
    · split
      · rename_i hql
        exact absurd hql (Option.isSome_iff_ne_none.mp
          (HB _ _ _ (Finset.insert_subset_insert _ hs)))
      · simp
    · simp
  · simp

theorem checkImgName_isSome (d : Dom) (i : Nat) (s : Finset Nat) :
    (checkImgName d i s).isSome := by
  unfold checkImgName
  repeat' split
  all_goals simp [apply_ite Option.isSome]

theorem checkTableName_isSome (d : Dom) (recname : NameRec) (i : Nat)
    (co : AccessibleNameOptions) {s0 s : Finset Nat} (hs : s0 ⊆ s)
    (HB : ∀ j o2 t, insert i s0 ⊆ t → (recname j o2 t).isSome) :
    (checkTableName d recname i co s).isSome := by
  unfold checkTableName
  split
  · dsimp only
    split
    · split
      · rename_i hql
        exact absurd hql (Option.isSome_iff_ne_none.mp
          (HB _ _ _ (Finset.insert_subset_insert _ hs)))
      · simp
    · split <;> simp
  · simp

theorem checkAreaName_isSome (d : Dom) (i : Nat) (s : Finset Nat) :
    (checkAreaName d i s).isSome := by
  unfold checkAreaName
  repeat' split
  all_goals simp [apply_ite Option.isSome]

theorem checkSvgTitleName_isSome (d : Dom) (recname : NameRec) (i : Nat)
    (co : AccessibleNameOptions) {s0 s : Finset Nat} (hs : s0 ⊆ s)
    (HB : ∀ j o2 t, insert i s0 ⊆ t → (recname j o2 t).isSome) :
    (checkSvgTitleName d recname i co s).isSome := by
  unfold checkSvgTitleName
  split
  · dsimp only
    split
    · split
      · rename_i hql
        exact absurd hql (Option.isSome_iff_ne_none.mp
          (HB _ _ _ (Finset.insert_subset_insert _ hs)))
      · simp
    · simp
  · simp

theorem checkSvgAName_isSome (d : Dom) (i : Nat) (s : Finset Nat) :
    (checkSvgAName d i s).isSome := by
  unfold checkSvgAName
  repeat' split
  all_goals simp [apply_ite Option.isSome]

theorem checkInputButtonName_inr_subset (d : Dom) (i : Nat) (s s' : Finset Nat)
    (h : checkInputButtonName d i s = some (.inr s')) : s ⊆ s' := by
  unfold checkInputButtonName at h
  dsimp only at h
  repeat' split at h
  all_goals first
    | (simp only [Option.some.injEq, Sum.inr.injEq] at h
       exact h ▸ Finset.Subset.refl s)
    | (simp only [Option.some.injEq, Sum.inr.injEq] at h
       exact h ▸ Finset.subset_insert i s)
    | (exact absurd h (assocLabels_no_inr _ _ _ _ _))
    | (simp at h)

theorem checkInputImageName_inr_subset (d : Dom) (recname : NameRec) (i : Nat)
    (o : AccessibleNameOptions) (s s' : Finset Nat)
    (h : checkInputImageName d recname i o s = some (.inr s')) : s ⊆ s' := by
  unfold checkInputImageName at h
  dsimp only at h
  repeat' split at h
  all_goals first
    | (simp only [Option.some.injEq, Sum.inr.injEq] at h
       exact h ▸ Finset.Subset.refl s)
    | (simp only [Option.some.injEq, Sum.inr.injEq] at h
       exact h ▸ Finset.subset_insert i s)
    | (exact absurd h (assocLabels_no_inr _ _ _ _ _))
    | (simp at h)

theorem checkButtonTagName_inr_subset (d : Dom) (recname : NameRec) (i : Nat)
    (o : AccessibleNameOptions) (lb : Option (List Nat)) (s s' : Finset Nat)
    (h : checkButtonTagName d recname i o lb s = some (.inr s')) : s ⊆ s' := by
  unfold checkButtonTagName at h
  dsimp only at h
  repeat' split at h
  all_goals first
    | (simp only [Option.some.injEq, Sum.inr.injEq] at h
       exact h ▸ Finset.Subset.refl s)
    | (simp only [Option.some.injEq, Sum.inr.injEq] at h
       exact h ▸ Finset.subset_insert i s)
    | (exact absurd h (assocLabels_no_inr _ _ _ _ _))
    | (simp at h)

theorem checkOutputName_inr_subset (d : Dom) (recname : NameRec) (i : Nat)
    (o : AccessibleNameOptions) (lb : Option (List Nat)) (s s' : Finset Nat)
    (h : checkOutputName d recname i o lb s = some (.inr s')) : s ⊆ s' := by
  unfold checkOutputName at h
  dsimp only at h
  repeat' split at h
  all_goals first
    | (simp only [Option.some.injEq, Sum.inr.injEq] at h
       exact h ▸ Finset.Subset.refl s)
    | (simp only [Option.some.injEq, Sum.inr.injEq] at h
       exact h ▸ Finset.subset_insert i s)
    | (exact absurd h (assocLabels_no_inr _ _ _ _ _))
    | (simp at h)

theorem checkTextFieldName_inr_subset (d : Dom) (recname : NameRec) (i : Nat)
    (o : AccessibleNameOptions) (lb : Option (List Nat)) (s s' : Finset Nat)
    (h : checkTextFieldName d recname i o lb s = some (.inr s')) : s ⊆ s' := by
  unfold checkTextFieldName at h
  dsimp only at h
  repeat' split at h
  all_goals first
    | (simp only [Option.some.injEq, Sum.inr.injEq] at h
       exact h ▸ Finset.Subset.refl s)
    | (simp only [Option.some.injEq, Sum.inr.injEq] at h
       exact h ▸ Finset.subset_insert i s)
    | (exact absurd h (assocLabels_no_inr _ _ _ _ _))
    | (simp at h)

theorem checkFieldsetName_inr_subset (d : Dom) (recname : NameRec) (i : Nat)
    (co : AccessibleNameOptions) (lb : Option (List Nat)) (s s' : Finset Nat)
    (h : checkFieldsetName d recname i co lb s = some (.inr s')) : s ⊆ s' := by
  unfold checkFieldsetName at h
  dsimp only at h
  repeat' split at h
  all_goals first
    | (simp only [Option.some.injEq, Sum.inr.injEq] at h
       exact h ▸ Finset.Subset.refl s)
    | (simp only [Option.some.injEq, Sum.inr.injEq] at h
       exact h ▸ Finset.subset_insert i s)
    | (exact absurd h (assocLabels_no_inr _ _ _ _ _))
    | (simp at h)

theorem checkFigureName_inr_subset (d : Dom) (recname : NameRec) (i : Nat)
    (co : AccessibleNameOptions) (lb : Option (List Nat)) (s s' : Finset Nat)
    (h : checkFigureName d recname i co lb s = some (.inr s')) : s ⊆ s' := by
  unfold checkFigureName at h
  dsimp only at h
  repeat' split at h
  all_goals first
    | (simp only [Option.some.injEq, Sum.inr.injEq] at h
       exact h ▸ Finset.Subset.refl s)
    | (simp only [Option.some.injEq, Sum.inr.injEq] at h
       exact h ▸ Finset.subset_insert i s)
    | (exact absurd h (assocLabels_no_inr _ _ _ _ _))
    | (simp at h)

theorem checkImgName_inr_subset (d : Dom) (i : Nat) (s s' : Finset Nat)
    (h : checkImgName d i s = some (.inr s')) : s ⊆ s' := by
  unfold checkImgName at h
  dsimp only at h
  repeat' split at h
  all_goals first
    | (simp only [Option.some.injEq, Sum.inr.injEq] at h
       exact h ▸ Finset.Subset.refl s)
    | (simp only [Option.some.injEq, Sum.inr.injEq] at h
       exact h ▸ Finset.subset_insert i s)
    | (simp at h)

theorem checkTableName_inr_subset (d : Dom) (recname : NameRec) (i : Nat)
    (co : AccessibleNameOptions) (s s' : Finset Nat)
    (h : checkTableName d recname i co s = some (.inr s')) : s ⊆ s' := by
  unfold checkTableName at h
  dsimp only at h
  repeat' split at h
  all_goals first
    | (simp only [Option.some.injEq, Sum.inr.injEq] at h
       exact h ▸ Finset.Subset.refl s)
    | (simp only [Option.some.injEq, Sum.inr.injEq] at h
       exact h ▸ Finset.subset_insert i s)
    | (simp at h)

theorem checkAreaName_inr_subset (d : Dom) (i : Nat) (s s' : Finset Nat)
    (h : checkAreaName d i s = some (.inr s')) : s ⊆ s' := by
  unfold checkAreaName at h
  dsimp only at h
  repeat' split at h
  all_goals first
    | (simp only [Option.some.injEq, Sum.inr.injEq] at h
       exact h ▸ Finset.Subset.refl s)
    | (simp only [Option.some.injEq, Sum.inr.injEq] at h
       exact h ▸ Finset.subset_insert i s)
    | (simp at h)

theorem checkSvgTitleName_inr_subset (d : Dom) (recname : NameRec) (i : Nat)
    (co : AccessibleNameOptions) (s s' : Finset Nat)
    (h : checkSvgTitleName d recname i co s = some (.inr s')) : s ⊆ s' := by
  unfold checkSvgTitleName at h
  dsimp only at h
  repeat' split at h
  all_goals first
    | (simp only [Option.some.injEq, Sum.inr.injEq] at h
       exact h ▸ Finset.Subset.refl s)
    | (simp only [Option.some.injEq, Sum.inr.injEq] at h
       exact h ▸ Finset.subset_insert i s)
    | (simp at h)

theorem checkSvgAName_inr_subset (d : Dom) (i : Nat) (s s' : Finset Nat)
    (h : checkSvgAName d i s = some (.inr s')) : s ⊆ s' := by
  unfold checkSvgAName at h
  dsimp only at h
  repeat' split at h
  all_goals first
    | (simp only [Option.some.injEq, Sum.inr.injEq] at h
       exact h ▸ Finset.Subset.refl s)
    | (simp only [Option.some.injEq, Sum.inr.injEq] at h
       exact h ▸ Finset.subset_insert i s)
    | (simp at h)

theorem step2d_isSome (d : Dom) (i : Nat) (s : Finset Nat) : (step2d d i s).isSome := by
  unfold step2d
  dsimp only
  split <;> simp

theorem step2d_inr_eq (d : Dom) (i : Nat) (s s' : Finset Nat)
    (h : step2d d i s = some (.inr s')) : s' = s := by
  unfold step2d at h
  dsimp only at h
  split at h
  · simp at h
  · simp only [Option.some.injEq, Sum.inr.injEq] at h
    exact h.symm

theorem step2e_isSome (d : Dom) (recname : NameRec) (i : Nat)
    (o co : AccessibleNameOptions) (lb : Option (List Nat)) (role : String)
    {s0 s : Finset Nat} (hs : s0 ⊆ s)
    (HB : ∀ j o2 t, insert i s0 ⊆ t → (recname j o2 t).isSome) :
    (step2e d recname i o co lb role s).isSome := by
  unfold step2e
  split
  case isFalse => simp
  case isTrue =>
    apply stepSeq_isSome (checkInputButtonName_isSome d i s)
    intro s1 h1
    have hs1 : s0 ⊆ s1 := hs.trans (checkInputButtonName_inr_subset d i s s1 h1)
    apply stepSeq_isSome (checkInputImageName_isSome d recname i o hs1 HB)
    intro s2 h2
    have hs2 : s0 ⊆ s2 := hs1.trans (checkInputImageName_inr_subset d recname i o s1 s2 h2)
    apply stepSeq_isSome (checkButtonTagName_isSome d recname i o lb hs2 HB)
    intro s3 h3
    have hs3 : s0 ⊆ s3 := hs2.trans (checkButtonTagName_inr_subset d recname i o lb s2 s3 h3)
    apply stepSeq_isSome (checkOutputName_isSome d recname i o lb hs3 HB)
    intro s4 h4
    have hs4 : s0 ⊆ s4 := hs3.trans (checkOutputName_inr_subset d recname i o lb s3 s4 h4)
    apply stepSeq_isSome (checkTextFieldName_isSome d recname i o lb hs4 HB)
    intro s5 h5
    have hs5 : s0 ⊆ s5 := hs4.trans (checkTextFieldName_inr_subset d recname i o lb s4 s5 h5)
    apply stepSeq_isSome (checkFieldsetName_isSome d recname i co lb hs5 HB)
    intro s6 h6
    have hs6 : s0 ⊆ s6 := hs5.trans (checkFieldsetName_inr_subset d recname i co lb s5 s6 h6)
    apply stepSeq_isSome (checkFigureName_isSome d recname i co lb hs6 HB)
    intro s7 h7
    have hs7 : s0 ⊆ s7 := hs6.trans (checkFigureName_inr_subset d recname i co lb s6 s7 h7)
    apply stepSeq_isSome (checkImgName_isSome d i s7)
    intro s8 h8
    have hs8 : s0 ⊆ s8 := hs7.trans (checkImgName_inr_subset d i s7 s8 h8)
    apply stepSeq_isSome (checkTableName_isSome d recname i co hs8 HB)
    intro s9 h9
    have hs9 : s0 ⊆ s9 := hs8.trans (checkTableName_inr_subset d recname i co s8 s9 h9)
    apply stepSeq_isSome (checkAreaName_isSome d i s9)
    intro s10 h10
    have hs10 : s0 ⊆ s10 := hs9.trans (checkAreaName_inr_subset d i s9 s10 h10)
    apply stepSeq_isSome (checkSvgTitleName_isSome d recname i co hs10 HB)
    intro s11 h11
    exact checkSvgAName_isSome d i s11

theorem step2e_inr_subset (d : Dom) (recname : NameRec) (i : Nat)
    (o co : AccessibleNameOptions) (lb : Option (List Nat)) (role : String)
    (s s' : Finset Nat)
    (h : step2e d recname i o co lb role s = some (.inr s')) : s ⊆ s' := by
  unfold step2e at h
  split at h
  case isFalse =>
    simp only [Option.some.injEq, Sum.inr.injEq] at h
    exact h ▸ Finset.Subset.refl s
  case isTrue =>
    obtain ⟨s1, h1, h⟩ := stepSeq_inr_elim h
    obtain ⟨s2, h2, h⟩ := stepSeq_inr_elim h
    obtain ⟨s3, h3, h⟩ := stepSeq_inr_elim h
    obtain ⟨s4, h4, h⟩ := stepSeq_inr_elim h
    obtain ⟨s5, h5, h⟩ := stepSeq_inr_elim h
    obtain ⟨s6, h6, h⟩ := stepSeq_inr_elim h
    obtain ⟨s7, h7, h⟩ := stepSeq_inr_elim h
    obtain ⟨s8, h8, h⟩ := stepSeq_inr_elim h
    obtain ⟨s9, h9, h⟩ := stepSeq_inr_elim h
    obtain ⟨s10, h10, h⟩ := stepSeq_inr_elim h
    obtain ⟨s11, h11, h⟩ := stepSeq_inr_elim h
    exact ((checkInputButtonName_inr_subset d i s s1 h1).trans
      ((checkInputImageName_inr_subset d recname i o s1 s2 h2).trans
      ((checkButtonTagName_inr_subset d recname i o lb s2 s3 h3).trans
      ((checkOutputName_inr_subset d recname i o lb s3 s4 h4).trans
      ((checkTextFieldName_inr_subset d recname i o lb s4 s5 h5).trans
      ((checkFieldsetName_inr_subset d recname i co lb s5 s6 h6).trans
      ((checkFigureName_inr_subset d recname i co lb s6 s7 h7).trans
      ((checkImgName_inr_subset d i s7 s8 h8).trans
      ((checkTableName_inr_subset d recname i co s8 s9 h9).trans
      ((checkAreaName_inr_subset d i s9 s10 h10).trans
      ((checkSvgTitleName_inr_subset d recname i co s10 s11 h11).trans
      (checkSvgAName_inr_subset d i s11 s' h))))))))))))

theorem step2fTokens_isSome (d : Dom) (recname : NameRec) (co : AccessibleNameOptions)
    (i : Nat) {B s2 : Finset Nat} (hs : B ⊆ s2)
    (HB : ∀ j t, B ⊆ t → (recname j co t).isSome) :
    (step2fTokens d recname co i s2).isSome := by
  have hv : ∀ sk l t, B ⊆ t → (visitListGo d recname co sk l t).isSome :=
    fun sk l t h => visitListGo_isSome_of d recname co sk HB l t h
  unfold step2fTokens
  split
  · exact hv false _ s2 hs
  · obtain ⟨⟨t1, u1⟩, h1⟩ := Option.isSome_iff_exists.mp (hv true _ s2 hs)
    rw [h1]
    dsimp only
    obtain ⟨⟨t2, u2⟩, h2⟩ := Option.isSome_iff_exists.mp
      (hv true _ (u1 ∪ s2) (hs.trans Finset.subset_union_right))
    rw [h2]
    dsimp only
    obtain ⟨⟨t3, u3⟩, h3⟩ := Option.isSome_iff_exists.mp
      (hv true _ (u2 ∪ u1 ∪ s2) (hs.trans Finset.subset_union_right))
    rw [h3]
    simp

theorem step2f_isSome (d : Dom) (recname : NameRec) (i : Nat)
    (o co : AccessibleNameOptions) (role : String) {s0 s : Finset Nat}
    (hs : s0 ⊆ s)
    (HB : ∀ j o2 t, insert i s0 ⊆ t → (recname j o2 t).isSome) :
    (step2f d recname i o co role s).isSome := by
  unfold step2f
  split
  · obtain ⟨⟨toks, t⟩, hT⟩ := Option.isSome_iff_exists.mp
      (step2fTokens_isSome d recname co i (Finset.insert_subset_insert _ hs)
        (fun j t' h' => HB j co t' h'))
    rw [hT]
    dsimp only
    split <;> simp
  · simp

theorem nameStep_match_isSome {r : NameStep} (f : Finset Nat → String × Finset Nat)
    (hr : r.isSome) :
    (match r with
     | none => none
     | some (.inl v) => some v
     | some (.inr s) => some (f s)).isSome := by
  cases r with
  | none => simp at hr
  | some v =>
    cases v with
    | inl x => simp
    | inr s => simp

theorem internalNameTotal (d : Dom) :
    ∀ n i o s, 2 * unvisCount d s + lbRank o + 1 ≤ n →
      (getElementAccessibleNameInternal d n i o s).isSome := by
  intro n
  induction n with
  | zero => intro i o s h; exact absurd h (by omega)
  | succ n ih =>
    intro i o s hbound
    show (nameCore d (getElementAccessibleNameInternal d n) i o s).isSome
    unfold nameCore
    cases he : elemAt d i with
    | none => simp
    | some e =>
      have hlen : i < d.elems.length := elemAt_lt_length he
      dsimp only
      by_cases hin : i ∈ s
      · rw [if_pos hin]; simp
      · rw [if_neg hin]
        split
        · simp
        · have HB : ∀ j o2 t, insert i s ⊆ t →
              (getElementAccessibleNameInternal d n j o2 t).isSome := by
            intro j o2 t hBt
            apply ih
            have h1 : unvisCount d t ≤ unvisCount d (insert i s) := unvis_mono d hBt
            have h2 : unvisCount d (insert i s) < unvisCount d s :=
              unvis_insert_lt d hlen hin (Finset.Subset.refl s)
            have h3 := lbRank_le_one o2
            omega
          have H2b : o.embeddedInLabelledBy = EmbeddedMode.none →
              ∀ j t, s ⊆ t → (getElementAccessibleNameInternal d n j
                { o with
                  embeddedInLabelledBy := .self,
                  embeddedInTargetElement := .none,
                  embeddedInLabel := .none,
                  embeddedInTextAlternativeElement := false } t).isSome := by
            intro hnone j t hst
            apply ih
            have h1 : unvisCount d t ≤ unvisCount d s := unvis_mono d hst
            have hr0 : lbRank { o with
                embeddedInLabelledBy := EmbeddedMode.self,
                embeddedInTargetElement := EmbeddedMode.none,
                embeddedInLabel := EmbeddedMode.none,
                embeddedInTextAlternativeElement := false } = 0 := by
              simp [lbRank]
            have hr1 : lbRank o = 1 := by simp [lbRank, hnone]
            rw [hr0]
            omega
          apply nameStep_match_isSome
          apply stepSeq_isSome (step2b_isSome d _ o _ s H2b)
          intro s1 h1
          have hs1 : s ⊆ s1 := step2b_inr_subset d _ o _ s s1 h1
          apply stepSeq_isSome (step2c_isSome d _ i o _ _ _ hs1 HB)
          intro s2 h2
          have hs2 : s ⊆ s2 := by
            rw [step2c_inr_eq d _ i o _ _ _ s1 s2 h2]; exact hs1
          apply stepSeq_isSome (step2d_isSome d i s2)
          intro s3 h3
          have hs3 : s ⊆ s3 := by
            rw [step2d_inr_eq d i s2 s3 h3]; exact hs2
          apply stepSeq_isSome (step2e_isSome d _ i o _ _ _ hs3 HB)
          intro s4 h4
          have hs4 : s ⊆ s4 := hs3.trans (step2e_inr_subset d _ i o _ _ _ s3 s4 h4)
          exact step2f_isSome d _ i o _ _ hs4 HB

/-- C1: for every document, element index and includeHidden flag, the
accessible-name computation is total: the fuel 2 * |elements| + 2 given to
getElementAccessibleNameInternal always suffices, because the visited set
is consulted before any recursive work on a node, so even reference cycles
through aria-labelledby, aria-owns, labels or descendants yield a defined
string. -/
theorem c1_name_computation_total (d : Dom) (i : Nat) (includeHidden : Bool) :
    ∃ s : String, getElementAccessibleNameComputed d i includeHidden = some s := by
  unfold getElementAccessibleNameComputed
  split
  · exact ⟨"", rfl⟩
  · have h : (getElementAccessibleNameInternal d (accessibleNameBound d) i
        (initialNameOptions includeHidden) ∅).isSome := by
      apply internalNameTotal
      have h1 : unvisCount d (∅ : Finset Nat) ≤ d.elems.length := by
        unfold unvisCount
        simpa using Finset.card_le_card (Finset.sdiff_subset)
      have h2 : lbRank (initialNameOptions includeHidden) ≤ 1 := lbRank_le_one _
      unfold accessibleNameBound
      omega
    obtain ⟨⟨r, t⟩, hr⟩ := Option.isSome_iff_exists.mp h
    rw [hr]
    exact ⟨normalizeAccessbileName r, rfl⟩

/-- No two adjacent characters of the list are both JavaScript whitespace. -/
def noDoubleWS : List Char → Bool
  | a :: b :: rest => !(jsWS a && jsWS b) && noDoubleWS (b :: rest)
  | _ => true

theorem noDoubleWS_tail {a : Char} {l : List Char}
    (h : noDoubleWS (a :: l) = true) : noDoubleWS l = true := by
  cases l with
  | nil => rfl
  | cons b r =>
    simp only [noDoubleWS, Bool.and_eq_true] at h
    exact h.2

theorem noDoubleWS_cons {a : Char} {l : List Char}
    (h : noDoubleWS l = true)
    (hh : ∀ b, l.head? = some b → (jsWS a && jsWS b) = false) :
    noDoubleWS (a :: l) = true := by
  cases l with
  | nil => rfl
  | cons b r =>
    simp only [noDoubleWS, Bool.and_eq_true, Bool.not_eq_true']
    exact ⟨hh b rfl, h⟩

theorem collapseWsGo_true_head :
    ∀ l c, (collapseWsGo true l).head? = some c → jsWS c = false := by
  intro l
  induction l with
  | nil => intro c h; simp [collapseWsGo] at h
  | cons a rest ih =>
    intro c h
    cases hw : jsWS a
    · rw [collapseWsGo] at h
      simp only [hw, Bool.false_eq_true, if_false, List.head?_cons,
        Option.some.injEq] at h
      rw [← h]
      exact hw
    · rw [collapseWsGo] at h
      simp only [hw, if_true] at h
      exact ih c h

theorem collapseWsGo_false_cons (a : Char) (rest : List Char) :
    collapseWsGo false (a :: rest) =
      (if jsWS a then
        match rest with
        | [] => [a]
        | e :: _ => if jsWS e then ' ' :: collapseWsGo true rest
                    else a :: collapseWsGo false rest
      else a :: collapseWsGo false rest) := by
  rw [collapseWsGo.eq_def]

theorem collapseWsGo_true_cons (a : Char) (rest : List Char) :
    collapseWsGo true (a :: rest) =
      (if jsWS a then collapseWsGo true rest else a :: collapseWsGo false rest) := by
  rw [collapseWsGo.eq_def]

theorem collapseWsGo_noDoubleWS :
    ∀ l f, noDoubleWS (collapseWsGo f l) = true := by
  intro l
  induction l with
  | nil => intro f; cases f <;> rfl
  | cons a rest ih =>
    intro f
    cases f
    · rw [collapseWsGo_false_cons]
      cases hw : jsWS a
      · rw [if_neg (by simp [hw])]
        apply noDoubleWS_cons (ih false)
        intro b _
        simp [hw]
      · rw [if_pos rfl]
        cases rest with
        | nil => rfl
        | cons e rest2 =>
          dsimp only
          cases he : jsWS e
          · rw [if_neg (by simp [he])]
            apply noDoubleWS_cons (ih false)
            intro b hb
            rw [collapseWsGo_false_cons, if_neg (by simp [he])] at hb
            simp only [List.head?_cons, Option.some.injEq] at hb
            rw [← hb]
            simp [he]
          · rw [if_pos rfl]
            apply noDoubleWS_cons (ih true)
            intro b hb
            simp [collapseWsGo_true_head _ b hb]
    · rw [collapseWsGo_true_cons]
      cases hw : jsWS a
      · rw [if_neg (by simp [hw])]
        apply noDoubleWS_cons (ih false)
        intro b _
        simp [hw]
      · rw [if_pos rfl]
        exact ih true

theorem dropWhile_head_not (p : Char → Bool) :
    ∀ (l : List Char) (c : Char), ((l.dropWhile p).head? = some c) → p c = false := by
  intro l
  induction l with
  | nil => intro c h; simp [List.dropWhile] at h
  | cons a rest ih =>
    intro c h
    cases hp : p a
    · rw [List.dropWhile_cons, if_neg (by simp [hp])] at h
      simp only [List.head?_cons, Option.some.injEq] at h
      rw [← h]
      exact hp
    · rw [List.dropWhile_cons, if_pos hp] at h
      exact ih c h

theorem noDoubleWS_dropWhile (p : Char → Bool) :
    ∀ l, noDoubleWS l = true → noDoubleWS (l.dropWhile p) = true := by
  intro l
  induction l with
  | nil => intro h; exact h
  | cons a rest ih =>
    intro h
    cases hp : p a
    · rw [List.dropWhile_cons, if_neg (by simp [hp])]
      exact h
    · rw [List.dropWhile_cons, if_pos hp]
      exact ih (noDoubleWS_tail h)

theorem trimRightWs_head :
    ∀ l c, (trimRightWs l).head? = some c → l.head? = some c := by
  intro l
  cases l with
  | nil => intro c h; simp [trimRightWs] at h
  | cons a rest =>
    intro c h
    rw [trimRightWs] at h
    cases hr : trimRightWs rest with
    | nil =>
      rw [hr] at h
      dsimp only at h
      split at h
      · simp at h
      · simp only [List.head?_cons, Option.some.injEq] at h
        simp [h]
    | cons x xs =>
      rw [hr] at h
      dsimp only at h
      simp only [List.head?_cons, Option.some.injEq] at h
      simp [h]

theorem noDoubleWS_trimRightWs :
    ∀ l, noDoubleWS l = true → noDoubleWS (trimRightWs l) = true := by
  intro l
  induction l with
  | nil => intro h; exact h
  | cons a rest ih =>
    intro h
    rw [trimRightWs]
    cases hr : trimRightWs rest with
    | nil =>
      dsimp only
      split <;> rfl
    | cons x xs =>
      dsimp only
      have hx : rest.head? = some x := trimRightWs_head rest x (by rw [hr]; rfl)
      apply noDoubleWS_cons
      · rw [← hr]
        exact ih (noDoubleWS_tail h)
      · intro b hb
        simp only [List.head?_cons, Option.some.injEq] at hb
        cases rest with
        | nil => simp at hx
        | cons y ys =>
          simp only [List.head?_cons, Option.some.injEq] at hx
          simp only [noDoubleWS, Bool.and_eq_true, Bool.not_eq_true'] at h
          rw [← hb, ← hx]
          exact h.1

theorem trimRightWs_last :
    ∀ l c, (trimRightWs l).getLast? = some c → jsWS c = false := by
  intro l
  induction l with
  | nil => intro c h; simp [trimRightWs] at h
  | cons a rest ih =>
    intro c h
    rw [trimRightWs] at h
    cases hr : trimRightWs rest with
    | nil =>
      rw [hr] at h
      dsimp only at h
      split at h
      · simp at h
      · rename_i hws
        simp only [List.getLast?_singleton, Option.some.injEq] at h
        rw [← h]
        simpa using hws
    | cons x xs =>
      rw [hr] at h
      dsimp only at h
      rw [List.getLast?_cons_cons] at h
      exact ih c (by rw [hr]; exact h)

theorem normalizeShape (s : String) :
    noDoubleWS (normalizeAccessbileName s).data = true
    ∧ (∀ c, (normalizeAccessbileName s).data.head? = some c → jsWS c = false)
    ∧ (∀ c, (normalizeAccessbileName s).data.getLast? = some c → jsWS c = false) := by
  unfold normalizeAccessbileName jsTrimList
  refine ⟨?_, ?_, ?_⟩
  · exact noDoubleWS_trimRightWs _
      (noDoubleWS_dropWhile jsWS _ (collapseWsGo_noDoubleWS _ false))
  · intro c hc
    exact dropWhile_head_not jsWS _ c (trimRightWs_head _ c hc)
  · intro c hc
    exact trimRightWs_last _ c hc

theorem nameComputedShape (d : Dom) (i : Nat) (f : Bool) :
    getElementAccessibleName d i f = ""
    ∨ ∃ x, getElementAccessibleName d i f = normalizeAccessbileName x := by
  unfold getElementAccessibleName getElementAccessibleNameComputed
  split
  · left; rfl
  · cases hr : getElementAccessibleNameInternal d (accessibleNameBound d) i
        (initialNameOptions f) ∅ with
    | none => left; rfl
    | some p => right; exact ⟨p.1, rfl⟩

def domC2 : Dom :=
  ⟨[{ blankElem with tagName := "BUTTON", attrs := [("aria-label", "a\rb")] }]⟩

/-- C2 counterexample: a button whose aria-label holds a lone carriage
return between two letters. The normalization chain folds only the pair
CRLF to a newline and collapses runs of two or more whitespace
characters, so the lone carriage return survives into the returned
accessible name, contradicting the claim that the result never contains
a carriage return. -/
theorem c2_counterexample :
    getElementAccessibleName domC2 0 false = "a\rb"
    ∧ '\r' ∈ (getElementAccessibleName domC2 0 false).data := by decide

/-- C2 (amended): the string returned by getElementAccessibleName is
normalized in the following sense: it never contains two consecutive
JavaScript-whitespace characters, and it has no leading and no trailing
whitespace. (The original claim's further assertion that the result never
contains a carriage return fails: only the two-character sequence CRLF is
folded to a newline and only runs of at least two whitespace characters
are collapsed, so a lone carriage return between non-whitespace
characters is kept.) -/
theorem c2_name_normalized (d : Dom) (i : Nat) (f : Bool) :
    noDoubleWS (getElementAccessibleName d i f).data = true
    ∧ (∀ c, (getElementAccessibleName d i f).data.head? = some c → jsWS c = false)
    ∧ (∀ c, (getElementAccessibleName d i f).data.getLast? = some c → jsWS c = false) := by
  rcases nameComputedShape d i f with h | ⟨x, h⟩
  · rw [h]
    refine ⟨rfl, ?_, ?_⟩
    · intro c hc
      simp [show ("" : String).data = [] from rfl] at hc
    · intro c hc
      simp [show ("" : String).data = [] from rfl] at hc
  · rw [h]
    exact normalizeShape x

def domC6 : Dom :=
  ⟨[{ blankElem with
      tagName := "TABLE",
      attrs := [("summary", "Items"), ("title", "Ignored")],
      childNodes := [.elem 1] },
    { blankElem with
      tagName := "CAPTION",
      parentElement := some 0,
      childNodes := [.text "Inventory" true false] }]⟩

def domC6t : Dom :=
  ⟨[{ blankElem with tagName := "TABLE", attrs := [("title", "T")] }]⟩

/-- C6 counterexample: a table with caption Inventory and summary Items
does resolve to Inventory, but a table carrying neither caption nor
summary and only title T resolves to T through the generic title
fallback of step 2i, so the title attribute is consulted when naming a
table, contrary to the claim. -/
theorem c6_counterexample :
    getElementAccessibleName domC6 0 false = "Inventory"
    ∧ getElementAccessibleName domC6t 0 false = "T"
    ∧ getAttributeOf domC6t 0 "aria-labelledby" = none
    ∧ getAttributeOf domC6t 0 "aria-label" = none
    ∧ firstElementChildWithTag domC6t 0 "CAPTION" = none
    ∧ getAttributeOf domC6t 0 "summary" = none := by decide

/-- C6 (amended): for a table element, the step-2e table check names it
by the recursive expansion of its first caption child when one exists
(the summary is then not consulted); with no caption, a non-empty summary
attribute is the name; with neither caption nor a non-empty summary the
check falls through, and the generic step-2i fallback then does take the
name from a non-blank title attribute for any non-presentational role, so
the title is consulted after caption and summary are exhausted, contrary
to the original claim. -/
theorem c6_table_caption_summary_then_title (d : Dom) (recname : NameRec)
    (i : Nat) (co : AccessibleNameOptions) (s : Finset Nat)
    (ht : tagOf d i = "TABLE") :
    (∀ cap, firstElementChildWithTag d i "CAPTION" = some cap →
      checkTableName d recname i co s =
        match recname cap
            { co with embeddedInTextAlternativeElement := true } (insert i s) with
        | none => none
        | some (r, t) => some (.inl (r, t ∪ insert i s)))
    ∧ (firstElementChildWithTag d i "CAPTION" = none →
        (getAttributeOf d i "summary").getD "" ≠ "" →
        checkTableName d recname i co s =
          some (.inl ((getAttributeOf d i "summary").getD "", insert i s)))
    ∧ (firstElementChildWithTag d i "CAPTION" = none →
        (getAttributeOf d i "summary").getD "" = "" →
        checkTableName d recname i co s = some (.inr (insert i s)))
    ∧ (∀ role s2, ¬(role = "presentation" ∨ role = "none") →
        jsTrim ((getAttributeOf d i "title").getD "") ≠ "" →
        step2i d i role s2 = ((getAttributeOf d i "title").getD "", insert i s2)) := by
  refine ⟨?_, ?_, ?_, ?_⟩
  · intro cap hc
    unfold checkTableName
    rw [if_pos ht]
    dsimp only
    rw [hc]
  · intro hc hsum
    unfold checkTableName
    rw [if_pos ht]
    dsimp only
    rw [hc]
    dsimp only
    rw [if_pos hsum]
  · intro hc hsum
    unfold checkTableName
    rw [if_pos ht]
    dsimp only
    rw [hc]
    dsimp only
    rw [if_neg (by simp [hsum])]
  · intro role s2 hrole htitle
    unfold step2i
    rw [if_pos (Or.inl hrole)]
    dsimp only
    rw [if_pos htitle]

theorem c6_witness :
    tagOf domC6t 0 = "TABLE"
    ∧ checkTableName domC6t (getElementAccessibleNameInternal domC6t 4) 0
        (initialNameOptions false) ∅ = some (.inr (insert 0 ∅))
    ∧ step2i domC6t 0 "table" (insert 0 ∅)
      = ((getAttributeOf domC6t 0 "title").getD "", insert 0 (insert 0 ∅)) :=
  have h := c6_table_caption_summary_then_title domC6t
      (getElementAccessibleNameInternal domC6t 4) 0 (initialNameOptions false) ∅
      (by decide)
  ⟨by decide, h.2.2.1 (by decide) (by decide), h.2.2.2 "table" (insert 0 ∅)
    (by decide) (by decide)⟩
